import Mathlib

/-!
Verification development for the hyparview membership engine.

The Rust sources under src/ are shallowly embedded here:

- pure data types (src/src/ttl.rs, src/src/message.rs, src/src/action.rs,
  src/src/event.rs, src/src/node_options.rs) become Lean structures and
  inductives;
- the stateful methods of `Node` (src/src/node.rs) become functions on an
  explicit `Node` record.  Methods that can panic (via rand 0.4's
  `gen_range(low, high)`, which panics when `low >= high`) return
  `Option (Node T)`, with `none` standing for the panic;
- the caller-supplied RNG (an out-of-scope collaborator of the engine) is
  modelled as a stream of naturals: `gen_range low high` consumes the next
  value of the stream and reduces it into `[low, high)`, and `Rng::shuffle`
  is the Fisher-Yates loop of rand 0.4, expressed with the same primitive;
- `u8` values are modelled as `Nat`: the only arithmetic performed on them
  is `saturating_sub 1`, which `Nat` subtraction models exactly, so no
  wrap-around has to be accounted for.
-/

namespace Hyparview

set_option linter.unusedSectionVars false

variable {T : Type} [DecidableEq T]

/-- TTL of a message (src/src/ttl.rs, `struct TimeToLive(u8)`). -/
structure TimeToLive where
  value : Nat
deriving DecidableEq, Repr

/-- `TimeToLive::new` (src/src/ttl.rs). -/
def TimeToLive.new (ttl : Nat) : TimeToLive := ⟨ttl⟩

/-- `TimeToLive::as_u8` (src/src/ttl.rs). -/
def TimeToLive.as_u8 (t : TimeToLive) : Nat := t.value

/-- `TimeToLive::is_expired` (src/src/ttl.rs): true iff the value is zero. -/
def TimeToLive.is_expired (t : TimeToLive) : Bool := t.value == 0

/-- `TimeToLive::decrement` (src/src/ttl.rs): `saturating_sub 1`, modelled by
`Nat` subtraction, which already saturates at zero. -/
def TimeToLive.decrement (t : TimeToLive) : TimeToLive := ⟨t.value - 1⟩

/-- `JOIN` message (src/src/message.rs). -/
structure JoinMessage (T : Type) where
  sender : T
deriving DecidableEq, Repr

/-- `FORWARD_JOIN` message (src/src/message.rs). -/
structure ForwardJoinMessage (T : Type) where
  sender : T
  new_node : T
  ttl : TimeToLive
deriving DecidableEq, Repr

/-- `NEIGHBOR` message (src/src/message.rs). -/
structure NeighborMessage (T : Type) where
  sender : T
  high_priority : Bool
deriving DecidableEq, Repr

/-- `SHUFFLE` message (src/src/message.rs). -/
structure ShuffleMessage (T : Type) where
  sender : T
  origin : T
  nodes : List T
  ttl : TimeToLive
deriving DecidableEq, Repr

/-- `SHUFFLE_REPLY` message (src/src/message.rs). -/
structure ShuffleReplyMessage (T : Type) where
  sender : T
  nodes : List T
deriving DecidableEq, Repr

/-- `DISCONNECT` message (src/src/message.rs). -/
structure DisconnectMessage (T : Type) where
  sender : T
  alive : Bool
deriving DecidableEq, Repr

/-- `ProtocolMessage` (src/src/message.rs): the tagged union of the six
protocol messages. -/
inductive ProtocolMessage (T : Type) where
  | Join : JoinMessage T → ProtocolMessage T
  | ForwardJoin : ForwardJoinMessage T → ProtocolMessage T
  | Neighbor : NeighborMessage T → ProtocolMessage T
  | Shuffle : ShuffleMessage T → ProtocolMessage T
  | ShuffleReply : ShuffleReplyMessage T → ProtocolMessage T
  | Disconnect : DisconnectMessage T → ProtocolMessage T
deriving DecidableEq, Repr

/-- `ProtocolMessage::sender` (src/src/message.rs). -/
def ProtocolMessage.sender : ProtocolMessage T → T
  | .Join m => m.sender
  | .ForwardJoin m => m.sender
  | .Neighbor m => m.sender
  | .Shuffle m => m.sender
  | .ShuffleReply m => m.sender
  | .Disconnect m => m.sender

/-- `ProtocolMessage::join` smart constructor (src/src/message.rs). -/
def ProtocolMessage.join (sender : T) : ProtocolMessage T := .Join ⟨sender⟩

/-- `ProtocolMessage::forward_join` smart constructor (src/src/message.rs). -/
def ProtocolMessage.forward_join (sender new_node : T) (ttl : TimeToLive) :
    ProtocolMessage T := .ForwardJoin ⟨sender, new_node, ttl⟩

/-- `ProtocolMessage::neighbor` smart constructor (src/src/message.rs). -/
def ProtocolMessage.neighbor (sender : T) (high_priority : Bool) :
    ProtocolMessage T := .Neighbor ⟨sender, high_priority⟩

/-- `ProtocolMessage::shuffle` smart constructor (src/src/message.rs). -/
def ProtocolMessage.shuffle (sender origin : T) (nodes : List T) (ttl : TimeToLive) :
    ProtocolMessage T := .Shuffle ⟨sender, origin, nodes, ttl⟩

/-- `ProtocolMessage::shuffle_reply` smart constructor (src/src/message.rs). -/
def ProtocolMessage.shuffle_reply (sender : T) (nodes : List T) :
    ProtocolMessage T := .ShuffleReply ⟨sender, nodes⟩

/-- `ProtocolMessage::disconnect` smart constructor (src/src/message.rs). -/
def ProtocolMessage.disconnect (sender : T) (alive : Bool) :
    ProtocolMessage T := .Disconnect ⟨sender, alive⟩

/-- Events emitted by a node (src/src/event.rs). -/
inductive Event (T : Type) where
  | NeighborUp : T → Event T
  | NeighborDown : T → Event T
deriving DecidableEq, Repr

/-- Actions instructed by a node (src/src/action.rs). -/
inductive Action (T : Type) where
  | Send : T → ProtocolMessage T → Action T
  | Disconnect : T → Action T
  | Notify : Event T → Action T
deriving DecidableEq, Repr

/-- `Action::notify_up` (src/src/action.rs). -/
def Action.notify_up (node : T) : Action T := .Notify (.NeighborUp node)

/-- `Action::notify_down` (src/src/action.rs). -/
def Action.notify_down (node : T) : Action T := .Notify (.NeighborDown node)

/-- `NodeOptions` (src/src/node_options.rs).  All six fields are `u8` in the
source; they are only compared and used as list lengths, so `Nat` models them
faithfully. -/
structure NodeOptions where
  max_active_view_size : Nat
  max_passive_view_size : Nat
  shuffle_active_view_size : Nat
  shuffle_passive_view_size : Nat
  active_random_walk_len : Nat
  passive_random_walk_len : Nat
deriving DecidableEq, Repr

/-- `NodeOptions::default` (src/src/node_options.rs). -/
def NodeOptions.default : NodeOptions := ⟨4, 24, 2, 2, 5, 2⟩

/-- The caller-supplied RNG, modelled as an infinite stream of naturals
together with a read position. -/
structure StdRng where
  stream : Nat → Nat
  pos : Nat

/-- The next raw value of the random stream. -/
def StdRng.peek (g : StdRng) : Nat := g.stream g.pos

/-- Consume one value of the random stream. -/
def StdRng.advance (g : StdRng) : StdRng := ⟨g.stream, g.pos + 1⟩

/-- The value `Rng::gen_range(lo, hi)` returns when `lo < hi`: the next stream
value reduced into `[lo, hi)`. -/
def genRangeFn (g : StdRng) (lo hi : Nat) : Nat := lo + g.peek % (hi - lo)

/-- `Rng::gen_range(lo, hi)` of rand 0.4: panics (here: `none`) when
`lo >= hi`, otherwise uniform in `[lo, hi)`. -/
def genRange (g : StdRng) (lo hi : Nat) : Option (Nat × StdRng) :=
  if lo < hi then some (genRangeFn g lo hi, g.advance) else none

/-- Swap the elements at positions `i` and `j` (Rust `slice::swap`).  Out of
bounds positions leave the list unchanged; every call site keeps both indices
in bounds. -/
def listSwap (l : List T) (i j : Nat) : List T :=
  match l.get? i, l.get? j with
  | some a, some b => (l.set i b).set j a
  | _, _ => l

/-- Rust `Vec::swap_remove(i)`: replace the element at `i` by the last element
and pop the last slot.  Every call site keeps `i` in bounds. -/
def swapRemove (l : List T) (i : Nat) : List T :=
  match l.getLast? with
  | none => []
  | some last => (l.set i last).dropLast

/-- Rust `Iterator::position`: index of the first element equal to `x`. -/
def position (x : T) : List T → Option Nat
  | [] => none
  | y :: ys => if y = x then some 0 else (position x ys).map (· + 1)

/-- The Fisher-Yates loop of rand 0.4's `Rng::shuffle`, running the loop
counter `i` down from the list length: while `i >= 2`, decrement `i` and swap
position `i` with `gen_range(0, i + 1)`. -/
def shuffleLoop : Nat → List T → StdRng → List T × StdRng
  | 0, l, g => (l, g)
  | 1, l, g => (l, g)
  | k + 2, l, g =>
    let j := genRangeFn g 0 (k + 2)
    shuffleLoop (k + 1) (listSwap l (k + 1) j) g.advance

/-- `Rng::shuffle` of rand 0.4 applied to a whole list. -/
def rngShuffle (l : List T) (g : StdRng) : List T × StdRng :=
  shuffleLoop l.length l g

/-- HyParView node state (src/src/node.rs, `struct Node<T, R>`).  The
`VecDeque` of pending actions is a list whose head is the queue front. -/
structure Node (T : Type) where
  id : T
  actions : List (Action T)
  active_view : List T
  passive_view : List T
  rng : StdRng
  options : NodeOptions

/-- The free function `send` (src/src/node.rs): push a `Send` action. -/
def sendAction (n : Node T) (destination : T) (message : ProtocolMessage T) :
    Node T :=
  { n with actions := n.actions ++ [Action.Send destination message] }

/-- `self.actions.push_back(a)` (src/src/node.rs). -/
def pushAction (n : Node T) (a : Action T) : Node T :=
  { n with actions := n.actions ++ [a] }

/-- `Node::with_options` (src/src/node.rs). -/
def with_options (node_id : T) (g : StdRng) (options : NodeOptions) : Node T :=
  { id := node_id, actions := [], active_view := [], passive_view := [],
    rng := g, options := options }

/-- `Node::is_active_view_full` (src/src/node.rs): uses `>=`. -/
def is_active_view_full (n : Node T) : Bool :=
  n.active_view.length ≥ n.options.max_active_view_size

/-- `Node::is_passive_view_full` (src/src/node.rs): uses `>=`. -/
def is_passive_view_full (n : Node T) : Bool :=
  n.passive_view.length ≥ n.options.max_passive_view_size

/-- `Node::remove_random_from_passive_view_if_full` (src/src/node.rs). -/
def remove_random_from_passive_view_if_full (n : Node T) : Option (Node T) :=
  if is_passive_view_full n then
    match genRange n.rng 0 n.passive_view.length with
    | none => none
    | some (i, g) =>
      some { n with rng := g, passive_view := swapRemove n.passive_view i }
  else some n

/-- `Node::add_to_passive_view` (src/src/node.rs). -/
def add_to_passive_view (n : Node T) (node : T) : Option (Node T) :=
  if node ∈ n.active_view ∨ node ∈ n.passive_view ∨ node = n.id then some n
  else
    match remove_random_from_passive_view_if_full n with
    | none => none
    | some n1 => some { n1 with passive_view := n1.passive_view ++ [node] }

/-- `Node::remove_from_passive_view` (src/src/node.rs). -/
def remove_from_passive_view (n : Node T) (node : T) : Node T :=
  match position node n.passive_view with
  | some i => { n with passive_view := swapRemove n.passive_view i }
  | none => n

/-- `Node::remove_from_active_view_by_index` (src/src/node.rs): swap-remove
the node at `i`, enqueue `Send(node, Disconnect{self, alive=true})`,
`Disconnect(node)` and `Notify(NeighborDown{node})`, then demote `node` into
the passive view.  An out-of-bounds index is the source's `swap_remove`
panic. -/
def remove_from_active_view_by_index (n : Node T) (i : Nat) : Option (Node T) :=
  match n.active_view.get? i with
  | none => none
  | some node =>
    let n1 := { n with active_view := swapRemove n.active_view i }
    let n2 := sendAction n1 node (ProtocolMessage.disconnect n1.id true)
    let n3 := pushAction n2 (Action.Disconnect node)
    let n4 := pushAction n3 (Action.notify_down node)
    add_to_passive_view n4 node

/-- `Node::remove_random_from_active_view_if_full` (src/src/node.rs). -/
def remove_random_from_active_view_if_full (n : Node T) : Option (Node T) :=
  if is_active_view_full n then
    match genRange n.rng 0 n.active_view.length with
    | none => none
    | some (i, g) => remove_from_active_view_by_index { n with rng := g } i
  else some n

/-- `Node::remove_from_active_view` (src/src/node.rs). -/
def remove_from_active_view (n : Node T) (node : T) : Option (Bool × Node T) :=
  match position node n.active_view with
  | some i => (remove_from_active_view_by_index n i).map (fun n1 => (true, n1))
  | none => some (false, n)

/-- `Node::add_to_active_view` (src/src/node.rs). -/
def add_to_active_view (n : Node T) (node : T) (high_priority : Bool) :
    Option (Node T) :=
  if node ∈ n.active_view ∨ node = n.id then some n
  else
    match remove_random_from_active_view_if_full n with
    | none => none
    | some n1 =>
      let n2 := remove_from_passive_view n1 node
      let n3 := { n2 with active_view := n2.active_view ++ [node] }
      let n4 := sendAction n3 node (ProtocolMessage.neighbor n3.id high_priority)
      some (pushAction n4 (Action.notify_up node))

/-- `Node::disconnect_unless_active_view_node` (src/src/node.rs). -/
def disconnect_unless_active_view_node (n : Node T) (node : T) : Node T :=
  if node ∉ n.active_view ∧ n.id ≠ node then
    pushAction (sendAction n node (ProtocolMessage.disconnect n.id true))
      (Action.Disconnect node)
  else n

/-- The scanning loop of `Node::select_forwarding_destination`
(src/src/node.rs): move excluded entries behind `tail`, advancing `i` past
kept entries.  The `get?` fallback is unreachable because `tail` never
exceeds the view length. -/
def sfdLoop (excludes : List T) (av : List T) (i tail : Nat) : List T × Nat :=
  if i < tail then
    match av.get? i with
    | some x =>
      if x ∈ excludes then sfdLoop excludes (listSwap av i (tail - 1)) i (tail - 1)
      else sfdLoop excludes av (i + 1) tail
    | none => (av, tail)
  else (av, tail)
termination_by tail - i
decreasing_by
  · omega
  · omega

/-- `Node::select_forwarding_destination` (src/src/node.rs). -/
def select_forwarding_destination (n : Node T) (excludes : List T) :
    Option T × Node T :=
  let p := sfdLoop excludes n.active_view 0 n.active_view.length
  let n1 := { n with active_view := p.1 }
  if p.2 = 0 then (none, n1)
  else
    let i := genRangeFn n1.rng 0 p.2
    (p.1.get? i, { n1 with rng := n1.rng.advance })

/-- `Node::select_random_from_active_view` (src/src/node.rs). -/
def select_random_from_active_view (n : Node T) : Option T × Node T :=
  if n.active_view.isEmpty then (none, n)
  else
    let i := genRangeFn n.rng 0 n.active_view.length
    (n.active_view.get? i, { n with rng := n.rng.advance })

/-- `Node::select_random_from_passive_view` (src/src/node.rs). -/
def select_random_from_passive_view (n : Node T) : Option T × Node T :=
  if n.passive_view.isEmpty then (none, n)
  else
    let i := genRangeFn n.rng 0 n.passive_view.length
    (n.passive_view.get? i, { n with rng := n.rng.advance })

/-- `Node::join` (src/src/node.rs). -/
def join (n : Node T) (contact_node_id : T) : Node T :=
  sendAction n contact_node_id (ProtocolMessage.join n.id)

/-- `Node::fill_active_view` (src/src/node.rs). -/
def fill_active_view (n : Node T) : Node T :=
  if !is_active_view_full n then
    match select_random_from_passive_view n with
    | (some node, n1) =>
      let high_priority := n1.active_view.isEmpty
      sendAction n1 node (ProtocolMessage.neighbor n1.id high_priority)
    | (none, n1) => n1
  else n

/-- `Node::sync_active_view` (src/src/node.rs): send a low-priority
`NEIGHBOR` to every current member of the active view. -/
def sync_active_view (n : Node T) : Node T :=
  n.active_view.foldl
    (fun acc node => sendAction acc node (ProtocolMessage.neighbor n.id false)) n

/-- `Node::shuffle_passive_view` (src/src/node.rs). -/
def shuffle_passive_view (n : Node T) : Node T :=
  match select_random_from_active_view n with
  | (none, n1) => n1
  | (some node, n1) =>
    let (pv, g1) := rngShuffle n1.passive_view n1.rng
    let n2 := { n1 with passive_view := pv, rng := g1 }
    let (av, g2) := rngShuffle n2.active_view n2.rng
    let n3 := { n2 with active_view := av, rng := g2 }
    let pv_size := n3.options.shuffle_passive_view_size
    let av_size := n3.options.shuffle_active_view_size
    let nodes := n3.passive_view.take pv_size ++ n3.active_view.take av_size ++ [n3.id]
    let ttl := TimeToLive.new n3.options.active_random_walk_len
    sendAction n3 node (ProtocolMessage.shuffle n3.id n3.id nodes ttl)

/-- `Node::handle_join` (src/src/node.rs). -/
def handle_join (n : Node T) (m : JoinMessage T) : Option (Node T) :=
  let new_node := m.sender
  match add_to_active_view n new_node true with
  | none => none
  | some n1 =>
    let ttl := TimeToLive.new n1.options.active_random_walk_len
    some ((n1.active_view.filter (fun x => decide (x ≠ new_node))).foldl
      (fun acc x =>
        sendAction acc x (ProtocolMessage.forward_join n1.id new_node ttl))
      n1)

/-- `Node::handle_forward_join` (src/src/node.rs). -/
def handle_forward_join (n : Node T) (m : ForwardJoinMessage T) : Option (Node T) :=
  if m.ttl.is_expired || n.active_view.isEmpty then
    add_to_active_view n m.new_node true
  else
    match
      (if m.ttl.as_u8 = n.options.passive_random_walk_len then
        add_to_passive_view n m.new_node
      else some n) with
    | none => none
    | some n1 =>
      match select_forwarding_destination n1 [m.sender] with
      | (some next, n2) =>
        some (sendAction n2 next
          (ProtocolMessage.forward_join n2.id m.new_node m.ttl.decrement))
      | (none, n2) => add_to_active_view n2 m.new_node true

/-- `Node::handle_neighbor` (src/src/node.rs). -/
def handle_neighbor (n : Node T) (m : NeighborMessage T) : Option (Node T) :=
  if m.high_priority || !is_active_view_full n then
    add_to_active_view n m.sender false
  else some n

/-- `Node::add_shuffled_nodes_to_passive_view` (src/src/node.rs). -/
def add_shuffled_nodes_to_passive_view : Node T → List T → Option (Node T)
  | n, [] => some n
  | n, x :: xs =>
    match add_to_passive_view n x with
    | none => none
    | some n1 => add_shuffled_nodes_to_passive_view n1 xs

/-- `Node::handle_shuffle` (src/src/node.rs). -/
def handle_shuffle (n : Node T) (m : ShuffleMessage T) : Option (Node T) :=
  if m.ttl.is_expired then
    let (pv, g) := rngShuffle n.passive_view n.rng
    let n1 := { n with passive_view := pv, rng := g }
    let reply_nodes := n1.passive_view.take m.nodes.length
    let n2 := sendAction n1 m.origin (ProtocolMessage.shuffle_reply n1.id reply_nodes)
    add_shuffled_nodes_to_passive_view n2 m.nodes
  else
    match select_forwarding_destination n [m.origin, m.sender] with
    | (some destination, n1) =>
      some (sendAction n1 destination
        (ProtocolMessage.shuffle n1.id m.origin m.nodes m.ttl.decrement))
    | (none, n1) => some n1

/-- `Node::handle_shuffle_reply` (src/src/node.rs). -/
def handle_shuffle_reply (n : Node T) (m : ShuffleReplyMessage T) : Option (Node T) :=
  add_shuffled_nodes_to_passive_view n m.nodes

/-- `Node::handle_disconnect` (src/src/node.rs). -/
def handle_disconnect (n : Node T) (m : DisconnectMessage T) : Option (Node T) :=
  match remove_from_active_view n m.sender with
  | none => none
  | some (removed, n1) =>
    let n2 :=
      if removed then fill_active_view (remove_from_passive_view n1 m.sender)
      else n1
    if m.alive then add_to_passive_view n2 m.sender else some n2

/-- `Node::handle_protocol_message` (src/src/node.rs): dispatch on the
variant; every variant except `Disconnect` is followed by
`disconnect_unless_active_view_node(sender)`. -/
def handle_protocol_message (n : Node T) (message : ProtocolMessage T) :
    Option (Node T) :=
  match message with
  | .Join m =>
    (handle_join n m).map
      (fun n1 => disconnect_unless_active_view_node n1 m.sender)
  | .ForwardJoin m =>
    (handle_forward_join n m).map
      (fun n1 => disconnect_unless_active_view_node n1 m.sender)
  | .Neighbor m =>
    (handle_neighbor n m).map
      (fun n1 => disconnect_unless_active_view_node n1 m.sender)
  | .Shuffle m =>
    (handle_shuffle n m).map
      (fun n1 => disconnect_unless_active_view_node n1 m.sender)
  | .ShuffleReply m =>
    (handle_shuffle_reply n m).map
      (fun n1 => disconnect_unless_active_view_node n1 m.sender)
  | .Disconnect m => handle_disconnect n m

/-- `Node::disconnect` (src/src/node.rs): handle a synthesised `Disconnect`
message. -/
def disconnect (n : Node T) (node : T) (alive : Bool) : Option (Node T) :=
  handle_protocol_message n (ProtocolMessage.disconnect node alive)

/-- `Node::poll_action` (src/src/node.rs): pop the front of the queue. -/
def poll_action (n : Node T) : Option (Action T) × Node T :=
  match n.actions with
  | [] => (none, n)
  | a :: rest => (some a, { n with actions := rest })

/-- One public call of the host-facing API (section 4.7 and 6 of the spec).
`setOptions` is the runtime adjustment available through `options_mut`. -/
inductive Call (T : Type) where
  | join : T → Call T
  | disconnect : T → Bool → Call T
  | handleMessage : ProtocolMessage T → Call T
  | fillActiveView : Call T
  | syncActiveView : Call T
  | shufflePassiveView : Call T
  | pollAction : Call T
  | setOptions : NodeOptions → Call T

/-- The state transition of one public call; `none` is a panic. -/
def step (n : Node T) : Call T → Option (Node T)
  | .join contact => some (join n contact)
  | .disconnect node alive => disconnect n node alive
  | .handleMessage m => handle_protocol_message n m
  | .fillActiveView => some (fill_active_view n)
  | .syncActiveView => some (sync_active_view n)
  | .shufflePassiveView => some (shuffle_passive_view n)
  | .pollAction => some (poll_action n).2
  | .setOptions o => some { n with options := o }

/-- Run a sequence of public calls from a state. -/
def runCalls : Node T → List (Call T) → Option (Node T)
  | n, [] => some n
  | n, c :: cs =>
    match step n c with
    | none => none
    | some n1 => runCalls n1 cs

/-! Basic lemmas about the list and RNG primitives. -/

/-- Replacing position `m` (which holds `a`) by `x` permutes `x` to the head. -/
theorem cons_set_perm : ∀ (xs : List T) (m : Nat) (a x : T),
    xs.get? m = some a → (a :: xs.set m x).Perm (x :: xs) := by
  intro xs
  induction xs with
  | nil => intro m a x h; simp at h
  | cons y ys ih =>
    intro m a x h
    cases m with
    | zero =>
      have ha : y = a := by simpa using h
      subst ha
      exact List.Perm.swap x y ys
    | succ m =>
      simp only [List.get?] at h
      have h1 : (a :: y :: ys.set m x).Perm (y :: a :: ys.set m x) :=
        List.Perm.swap y a _
      have h2 : (y :: a :: ys.set m x).Perm (y :: x :: ys) :=
        (ih m a x h).cons y
      have h3 : (y :: x :: ys).Perm (x :: y :: ys) := List.Perm.swap x y ys
      simpa using (h1.trans h2).trans h3

/-- `listSwap` permutes the list. -/
theorem listSwap_perm (l : List T) (i j : Nat) : (listSwap l i j).Perm l := by
  unfold listSwap
  cases hi : l.get? i with
  | none => exact List.Perm.refl l
  | some a =>
    cases hj : l.get? j with
    | none => exact List.Perm.refl l
    | some b =>
      simp only
      have hj' : (l.set i b).get? j = some b := by
        by_cases hij : i = j
        · subst hij
          have hlt : i < l.length := by
            by_contra hge
            rw [List.get?_eq_none.2 (by omega)] at hi
            cases hi
          exact List.get?_set_eq_of_lt b hlt
        · rw [List.get?_set_ne b l hij]; exact hj
      have p1 : (b :: (l.set i b).set j a).Perm (a :: l.set i b) :=
        cons_set_perm (l.set i b) j b a hj'
      have p2 : (a :: l.set i b).Perm (b :: l) := cons_set_perm l i a b hi
      exact (p1.trans p2).cons_inv

/-- `listSwap` preserves the length. -/
theorem listSwap_length (l : List T) (i j : Nat) :
    (listSwap l i j).length = l.length := by
  unfold listSwap
  cases hi : l.get? i <;> cases hj : l.get? j <;> simp

/-- Positions other than the two swapped ones are untouched by `listSwap`. -/
theorem listSwap_get?_of_ne (l : List T) (i j k : Nat) (h1 : k ≠ i) (h2 : k ≠ j) :
    (listSwap l i j).get? k = l.get? k := by
  unfold listSwap
  cases hi : l.get? i with
  | none => rfl
  | some a =>
    cases hj : l.get? j with
    | none => rfl
    | some b =>
      simp only
      rw [List.get?_set_ne a _ (fun h => h2 h.symm),
        List.get?_set_ne b l (fun h => h1 h.symm)]

/-- The last element of a list permutes to the head over `dropLast`. -/
theorem getLast?_cons_dropLast_perm :
    ∀ (l : List T) (x : T), l.getLast? = some x → (x :: l.dropLast).Perm l := by
  intro l x h
  have hne : l ≠ [] := by
    intro he; subst he; simp at h
  have hx : x = l.getLast hne := by
    have := List.getLast?_eq_getLast l hne
    rw [this] at h
    exact (Option.some_inj.1 h).symm
  subst hx
  have hsplit := List.dropLast_append_getLast hne
  calc (l.getLast hne :: l.dropLast).Perm (l.dropLast ++ [l.getLast hne]) := by
        simpa using (List.perm_append_comm :
          ([l.getLast hne] ++ l.dropLast).Perm (l.dropLast ++ [l.getLast hne]))
    _ = l := hsplit

/-- `swapRemove l i` removes exactly the element at position `i`: that element
cons the result permutes back to the whole list. -/
theorem swapRemove_cons_perm (l : List T) (i : Nat) (x : T)
    (h : l.get? i = some x) : (x :: swapRemove l i).Perm l := by
  unfold swapRemove
  cases hl : l.getLast? with
  | none =>
    rw [List.getLast?_eq_none_iff] at hl
    subst hl; simp at h
  | some last =>
    simp only
    have hne : l ≠ [] := by
      intro he; subst he; simp at hl
    have hpos : 0 < l.length := List.length_pos.2 hne
    have hset_last : (l.set i last).getLast? = some last := by
      rw [List.getLast?_eq_get? , List.length_set]
      by_cases hi : i = l.length - 1
      · subst hi
        exact List.get?_set_eq_of_lt last (by omega)
      · rw [List.get?_set_ne last l hi]
        rw [List.getLast?_eq_get?] at hl
        exact hl
    have A : (last :: (l.set i last).dropLast).Perm (l.set i last) :=
      getLast?_cons_dropLast_perm _ _ hset_last
    have B : (x :: l.set i last).Perm (last :: l) := cons_set_perm l i x last h
    have C : (last :: x :: (l.set i last).dropLast).Perm (last :: l) := by
      have c1 : (last :: x :: (l.set i last).dropLast).Perm
          (x :: last :: (l.set i last).dropLast) := List.Perm.swap x last _
      exact c1.trans ((A.cons x).trans B)
    exact C.cons_inv

/-- Membership after `swapRemove` implies membership before. -/
theorem swapRemove_subset (l : List T) (i : Nat) (x : T)
    (h : l.get? i = some x) {y : T} (hy : y ∈ swapRemove l i) : y ∈ l :=
  (swapRemove_cons_perm l i x h).mem_iff.1 (List.mem_cons_of_mem x hy)

/-- `swapRemove` keeps a duplicate-free list duplicate-free, and removes the
element that sat at the removed index. -/
theorem swapRemove_nodup (l : List T) (i : Nat) (x : T)
    (h : l.get? i = some x) (hn : l.Nodup) :
    (swapRemove l i).Nodup ∧ x ∉ swapRemove l i := by
  have := (swapRemove_cons_perm l i x h).nodup_iff.2 hn
  rw [List.nodup_cons] at this
  exact ⟨this.2, this.1⟩

/-- `swapRemove` shortens the list by one. -/
theorem swapRemove_length (l : List T) (i : Nat) (x : T)
    (h : l.get? i = some x) : (swapRemove l i).length + 1 = l.length := by
  have := (swapRemove_cons_perm l i x h).length_eq
  simpa using this

/-- `position` returns an index holding the searched element. -/
theorem position_some : ∀ (l : List T) (x : T) (i : Nat),
    position x l = some i → l.get? i = some x := by
  intro l
  induction l with
  | nil => intro x i h; simp [position] at h
  | cons y ys ih =>
    intro x i h
    unfold position at h
    by_cases hyx : y = x
    · rw [if_pos hyx] at h
      cases h
      simpa using hyx
    · rw [if_neg hyx] at h
      cases hp : position x ys with
      | none => rw [hp] at h; simp at h
      | some k =>
        rw [hp] at h
        simp at h
        subst h
        simpa using ih x k hp

/-- `position` fails exactly on absent elements. -/
theorem position_none (l : List T) (x : T) :
    position x l = none ↔ x ∉ l := by
  induction l with
  | nil => simp [position]
  | cons y ys ih =>
    unfold position
    by_cases hyx : y = x
    · subst hyx; simp
    · rw [if_neg hyx]
      cases hp : position x ys with
      | none =>
        simp only [Option.map_none']
        simp [ih.1 hp, Ne.symm hyx]
      | some k =>
        simp only [Option.map_some']
        constructor
        · intro h; simp at h
        · intro h
          exfalso
          have : x ∉ ys := fun hm => h (List.mem_cons_of_mem y hm)
          rw [← ih] at this
          rw [this] at hp
          cases hp

/-- `gen_range 0 hi` for positive `hi` returns a value below `hi`. -/
theorem genRangeFn_lt (g : StdRng) {hi : Nat} (h : 0 < hi) :
    genRangeFn g 0 hi < hi := by
  unfold genRangeFn
  simpa using Nat.mod_lt g.peek h

/-- `gen_range 0 hi` succeeds for positive `hi`. -/
theorem genRange_pos (g : StdRng) {hi : Nat} (h : 0 < hi) :
    genRange g 0 hi = some (genRangeFn g 0 hi, g.advance) := if_pos h

/-- `gen_range 0 0` panics. -/
theorem genRange_zero (g : StdRng) : genRange g 0 0 = none := rfl

/-- The Fisher-Yates loop permutes the list. -/
theorem shuffleLoop_perm : ∀ (k : Nat) (l : List T) (g : StdRng),
    (shuffleLoop k l g).1.Perm l := by
  intro k
  induction k using Nat.strong_induction_on with
  | _ k ih =>
    intro l g
    match k with
    | 0 => exact List.Perm.refl l
    | 1 => exact List.Perm.refl l
    | k + 2 =>
      have h1 := ih (k + 1) (by omega)
        (listSwap l (k + 1) (genRangeFn g 0 (k + 2))) g.advance
      exact h1.trans (listSwap_perm l (k + 1) (genRangeFn g 0 (k + 2)))

/-- `Rng::shuffle` permutes the list. -/
theorem rngShuffle_perm (l : List T) (g : StdRng) :
    (rngShuffle l g).1.Perm l := shuffleLoop_perm l.length l g

/-- The scanning loop of `select_forwarding_destination` permutes the view,
never grows `tail`, and leaves only non-excluded entries below `tail`. -/
theorem sfdLoop_spec : ∀ (fuel : Nat) (excludes av : List T) (i tail : Nat),
    tail - i ≤ fuel → tail ≤ av.length →
    (∀ k y, k < i → av.get? k = some y → y ∉ excludes) →
    (sfdLoop excludes av i tail).1.Perm av ∧
    (sfdLoop excludes av i tail).2 ≤ tail ∧
    (∀ k y, k < (sfdLoop excludes av i tail).2 →
      (sfdLoop excludes av i tail).1.get? k = some y → y ∉ excludes) := by
  intro fuel
  induction fuel with
  | zero =>
    intro excludes av i tail hfuel hlen hpre
    have hit : ¬ i < tail := by omega
    rw [sfdLoop, if_neg hit]
    exact ⟨List.Perm.refl _, Nat.le_refl _,
      fun k y hk hget => hpre k y (by omega) hget⟩
  | succ f ih =>
    intro excludes av i tail hfuel hlen hpre
    by_cases hit : i < tail
    · cases hget : av.get? i with
      | none =>
        exfalso
        rw [List.get?_eq_none] at hget
        omega
      | some x =>
        rw [sfdLoop, if_pos hit, hget]
        dsimp only
        by_cases hx : x ∈ excludes
        · rw [if_pos hx]
          have hlen' : tail - 1 ≤ (listSwap av i (tail - 1)).length := by
            rw [listSwap_length]; omega
          have hpre' : ∀ k y, k < i →
              (listSwap av i (tail - 1)).get? k = some y → y ∉ excludes := by
            intro k y hk hg
            rw [listSwap_get?_of_ne av i (tail - 1) k (by omega) (by omega)] at hg
            exact hpre k y hk hg
          obtain ⟨P1, P2, P3⟩ :=
            ih excludes (listSwap av i (tail - 1)) i (tail - 1) (by omega) hlen' hpre'
          exact ⟨P1.trans (listSwap_perm av i (tail - 1)), by omega, P3⟩
        · rw [if_neg hx]
          have hpre' : ∀ k y, k < i + 1 → av.get? k = some y → y ∉ excludes := by
            intro k y hk hg
            by_cases hki : k = i
            · subst hki
              rw [hget] at hg
              cases hg
              exact hx
            · exact hpre k y (by omega) hg
          exact ih excludes av (i + 1) tail (by omega) hlen hpre'
    · rw [sfdLoop, if_neg hit]
      exact ⟨List.Perm.refl _, Nat.le_refl _,
        fun k y hk hget => hpre k y (by omega) hget⟩

/-- Specification of `select_forwarding_destination`: it only reorders the
active view and advances the RNG, and a returned destination is an active
view member outside the exclusion list. -/
theorem select_forwarding_destination_spec (n : Node T) (excludes : List T) :
    (select_forwarding_destination n excludes).2.active_view.Perm n.active_view ∧
    (select_forwarding_destination n excludes).2.id = n.id ∧
    (select_forwarding_destination n excludes).2.passive_view = n.passive_view ∧
    (select_forwarding_destination n excludes).2.options = n.options ∧
    (select_forwarding_destination n excludes).2.actions = n.actions ∧
    (∀ d, (select_forwarding_destination n excludes).1 = some d →
      d ∈ (select_forwarding_destination n excludes).2.active_view ∧
        d ∉ excludes) := by
  obtain ⟨P1, P2, P3⟩ := sfdLoop_spec n.active_view.length excludes n.active_view
    0 n.active_view.length (by omega) (Nat.le_refl _) (by omega)
  unfold select_forwarding_destination
  set p := sfdLoop excludes n.active_view 0 n.active_view.length with hp
  by_cases h0 : p.2 = 0
  · rw [if_pos h0]
    exact ⟨P1, rfl, rfl, rfl, rfl, fun d hd => by cases hd⟩
  · rw [if_neg h0]
    refine ⟨P1, rfl, rfl, rfl, rfl, fun d hd => ?_⟩
    simp only at hd
    constructor
    · exact List.get?_mem hd
    · exact P3 _ d (by
        have := genRangeFn_lt n.rng (show 0 < p.2 by omega)
        omega) hd

/-! View invariants of the spec (section 3, invariants 1-4) together with the
preservation lemmas for every view mutation primitive. -/

/-- Invariants 1-3 of the spec: the local id is in neither view, the views
are disjoint, and neither view has duplicates. -/
def ViewInv (n : Node T) : Prop :=
  n.id ∉ n.active_view ∧ n.id ∉ n.passive_view ∧
  (∀ x, x ∈ n.active_view → x ∉ n.passive_view) ∧
  n.active_view.Nodup ∧ n.passive_view.Nodup

/-- Invariant 4 of the spec: both views respect their size caps. -/
def BoundsInv (n : Node T) : Prop :=
  n.active_view.length ≤ n.options.max_active_view_size ∧
  n.passive_view.length ≤ n.options.max_passive_view_size

/-- `ViewInv` only depends on the id and the two views up to permutation. -/
theorem ViewInv_congr {n n' : Node T} (hid : n'.id = n.id)
    (ha : n'.active_view.Perm n.active_view)
    (hp : n'.passive_view.Perm n.passive_view) :
    ViewInv n → ViewInv n' := by
  intro ⟨h1, h2, h3, h4, h5⟩
  refine ⟨?_, ?_, ?_, ha.nodup_iff.2 h4, hp.nodup_iff.2 h5⟩
  · rw [hid, ha.mem_iff]; exact h1
  · rw [hid, hp.mem_iff]; exact h2
  · intro x hx
    rw [hp.mem_iff]
    exact h3 x (ha.mem_iff.1 hx)

/-- Reading `is_active_view_full` as an arithmetic fact. -/
theorem is_active_view_full_iff (n : Node T) :
    is_active_view_full n = true ↔
      n.options.max_active_view_size ≤ n.active_view.length := by
  simp [is_active_view_full]

/-- Reading `is_passive_view_full` as an arithmetic fact. -/
theorem is_passive_view_full_iff (n : Node T) :
    is_passive_view_full n = true ↔
      n.options.max_passive_view_size ≤ n.passive_view.length := by
  simp [is_passive_view_full]

/-- What `remove_random_from_passive_view_if_full` does to each field. -/
theorem remove_random_from_passive_view_if_full_spec {n n' : Node T}
    (h : remove_random_from_passive_view_if_full n = some n') :
    n'.id = n.id ∧ n'.options = n.options ∧ n'.active_view = n.active_view ∧
    n'.actions = n.actions ∧
    (∀ x, x ∈ n'.passive_view → x ∈ n.passive_view) ∧
    (n.passive_view.Nodup → n'.passive_view.Nodup) ∧
    (is_passive_view_full n = false → n' = n) ∧
    (is_passive_view_full n = true →
      n'.passive_view.length + 1 = n.passive_view.length) := by
  unfold remove_random_from_passive_view_if_full at h
  by_cases hfull : is_passive_view_full n
  · rw [if_pos hfull] at h
    by_cases hlen : 0 < n.passive_view.length
    · rw [genRange_pos n.rng hlen] at h
      dsimp only at h
      rw [Option.some_inj] at h
      subst h
      cases hx : n.passive_view.get? (genRangeFn n.rng 0 n.passive_view.length) with
      | none =>
        exfalso
        rw [List.get?_eq_none] at hx
        have := genRangeFn_lt n.rng hlen
        omega
      | some x =>
        refine ⟨rfl, rfl, rfl, rfl, ?_, ?_, ?_, ?_⟩
        · intro y hy
          exact swapRemove_subset _ _ x hx hy
        · intro hn
          exact (swapRemove_nodup _ _ x hx hn).1
        · intro hf
          simp [hf] at hfull
        · intro _
          exact swapRemove_length _ _ x hx
    · exfalso
      have h0 : n.passive_view.length = 0 := by omega
      rw [h0, genRange_zero] at h
      simp at h
  · rw [if_neg hfull] at h
    rw [Option.some_inj] at h
    subst h
    refine ⟨rfl, rfl, rfl, rfl, fun y hy => hy, fun hn => hn, fun _ => rfl, ?_⟩
    intro hf
    exact absurd hf hfull

/-- Totality of `remove_random_from_passive_view_if_full` when the passive
cap is positive. -/
theorem remove_random_from_passive_view_if_full_total (n : Node T)
    (hP : 1 ≤ n.options.max_passive_view_size) :
    (remove_random_from_passive_view_if_full n).isSome := by
  unfold remove_random_from_passive_view_if_full
  by_cases hfull : is_passive_view_full n
  · rw [if_pos hfull]
    have hlen : 0 < n.passive_view.length := by
      have := (is_passive_view_full_iff n).1 hfull
      omega
    rw [genRange_pos n.rng hlen]
    rfl
  · rw [if_neg hfull]
    rfl

/-- What `add_to_passive_view` does to each field, including preservation of
the view invariants and of the passive size cap. -/
theorem add_to_passive_view_spec {n n' : Node T} {node : T}
    (h : add_to_passive_view n node = some n') :
    n'.id = n.id ∧ n'.options = n.options ∧ n'.active_view = n.active_view ∧
    n'.actions = n.actions ∧
    (∀ y, y ∈ n'.passive_view → y ∈ n.passive_view ∨ y = node) ∧
    (ViewInv n → ViewInv n') ∧
    (n.passive_view.length ≤ n.options.max_passive_view_size →
      n'.passive_view.length ≤ n.options.max_passive_view_size) := by
  unfold add_to_passive_view at h
  by_cases hg : node ∈ n.active_view ∨ node ∈ n.passive_view ∨ node = n.id
  · rw [if_pos hg] at h
    rw [Option.some_inj] at h
    subst h
    exact ⟨rfl, rfl, rfl, rfl, fun y hy => Or.inl hy, fun hv => hv, fun hb => hb⟩
  · rw [if_neg hg] at h
    push_neg at hg
    obtain ⟨hga, hgp, hgi⟩ := hg
    cases hrr : remove_random_from_passive_view_if_full n with
    | none =>
      rw [hrr] at h
      cases h
    | some n1 =>
      rw [hrr] at h
      dsimp only at h
      rw [Option.some_inj] at h
      subst h
      obtain ⟨e1, e2, e3, e4, hsub, hnd, hnf, hf⟩ :=
        remove_random_from_passive_view_if_full_spec hrr
      refine ⟨e1, e2, e3, e4, ?_, ?_, ?_⟩
      · intro y hy
        rcases List.mem_append.1 hy with hy1 | hy2
        · exact Or.inl (hsub y hy1)
        · exact Or.inr (by simpa using hy2)
      · intro ⟨v1, v2, v3, v4, v5⟩
        refine ⟨?_, ?_, ?_, ?_, ?_⟩
        · rw [e1, e3]; exact v1
        · rw [e1]
          intro hc
          rcases List.mem_append.1 hc with hc1 | hc2
          · exact v2 (hsub _ hc1)
          · have hin : n.id = node := by simpa using hc2
            exact hgi hin.symm
        · intro x hx
          rw [e3] at hx
          intro hc
          rcases List.mem_append.1 hc with hc1 | hc2
          · exact v3 x hx (hsub _ hc1)
          · have hxn : x = node := by simpa using hc2
            subst hxn
            exact hga hx
        · rw [e3]; exact v4
        · rw [List.nodup_append]
          refine ⟨hnd v5, List.nodup_singleton node, ?_⟩
          intro y hy hy2
          rw [List.mem_singleton] at hy2
          subst hy2
          exact hgp (hsub y hy)
      · intro hb
        rw [List.length_append, List.length_singleton]
        by_cases hfull : is_passive_view_full n
        · have := hf hfull
          omega
        · have hnfl := hnf (by simpa using hfull)
          rw [hnfl]
          have hlt : ¬ n.options.max_passive_view_size ≤ n.passive_view.length :=
            fun hc => hfull ((is_passive_view_full_iff n).2 hc)
          omega

/-- Totality of `add_to_passive_view` when the passive cap is positive. -/
theorem add_to_passive_view_total (n : Node T) (node : T)
    (hP : 1 ≤ n.options.max_passive_view_size) :
    (add_to_passive_view n node).isSome := by
  unfold add_to_passive_view
  by_cases hg : node ∈ n.active_view ∨ node ∈ n.passive_view ∨ node = n.id
  · rw [if_pos hg]; rfl
  · rw [if_neg hg]
    have := remove_random_from_passive_view_if_full_total n hP
    cases hrr : remove_random_from_passive_view_if_full n with
    | none =>
      rw [hrr] at this
      simp at this
    | some n1 => rfl

/-- What `remove_from_passive_view` does to each field. -/
theorem remove_from_passive_view_spec (n : Node T) (node : T) :
    (remove_from_passive_view n node).id = n.id ∧
    (remove_from_passive_view n node).options = n.options ∧
    (remove_from_passive_view n node).active_view = n.active_view ∧
    (remove_from_passive_view n node).actions = n.actions ∧
    (remove_from_passive_view n node).rng = n.rng ∧
    (∀ y, y ∈ (remove_from_passive_view n node).passive_view →
      y ∈ n.passive_view) ∧
    (n.passive_view.Nodup →
      (remove_from_passive_view n node).passive_view.Nodup ∧
      node ∉ (remove_from_passive_view n node).passive_view) ∧
    (remove_from_passive_view n node).passive_view.length ≤
      n.passive_view.length := by
  unfold remove_from_passive_view
  cases hp : position node n.passive_view with
  | none =>
    dsimp only
    refine ⟨rfl, rfl, rfl, rfl, rfl, fun y hy => hy, ?_, Nat.le_refl _⟩
    intro hn
    exact ⟨hn, (position_none n.passive_view node).1 hp⟩
  | some i =>
    dsimp only
    have hx := position_some n.passive_view node i hp
    refine ⟨rfl, rfl, rfl, rfl, rfl, ?_, ?_, ?_⟩
    · intro y hy
      exact swapRemove_subset _ _ node hx hy
    · intro hn
      obtain ⟨h1, h2⟩ := swapRemove_nodup _ _ node hx hn
      exact ⟨h1, h2⟩
    · have := swapRemove_length _ _ node hx
      omega

/-- `remove_from_active_view_by_index` routed through `add_to_passive_view`:
the three actions are enqueued in order and the removed node is demoted. -/
theorem remove_from_active_view_by_index_eq (n : Node T) (i : Nat) (node : T)
    (h : n.active_view.get? i = some node) :
    remove_from_active_view_by_index n i =
      add_to_passive_view
        { n with active_view := swapRemove n.active_view i,
                 actions := n.actions ++
                   [Action.Send node (ProtocolMessage.disconnect n.id true),
                    Action.Disconnect node, Action.notify_down node] } node := by
  unfold remove_from_active_view_by_index
  rw [h]
  dsimp only [sendAction, pushAction]
  rw [List.append_assoc, List.append_assoc]
  rfl

/-- What `remove_from_active_view_by_index` does to each field. -/
theorem remove_from_active_view_by_index_spec {n n' : Node T} {i : Nat}
    (h : remove_from_active_view_by_index n i = some n') :
    ∃ node, n.active_view.get? i = some node ∧
    n'.id = n.id ∧ n'.options = n.options ∧
    n'.active_view = swapRemove n.active_view i ∧
    (ViewInv n → ViewInv n') ∧
    (n.passive_view.length ≤ n.options.max_passive_view_size →
      n'.passive_view.length ≤ n.options.max_passive_view_size) ∧
    (n.active_view.Nodup → n'.active_view.Nodup) ∧
    n'.active_view.length + 1 = n.active_view.length := by
  cases hx : n.active_view.get? i with
  | none =>
    exfalso
    unfold remove_from_active_view_by_index at h
    rw [hx] at h
    cases h
  | some node =>
    rw [remove_from_active_view_by_index_eq n i node hx] at h
    obtain ⟨e1, e2, e3, e4, hsub, hVI, hB⟩ := add_to_passive_view_spec h
    have hVI1 : ViewInv n → ViewInv
        { n with active_view := swapRemove n.active_view i,
                 actions := n.actions ++
                   [Action.Send node (ProtocolMessage.disconnect n.id true),
                    Action.Disconnect node, Action.notify_down node] } := by
      intro ⟨v1, v2, v3, v4, v5⟩
      refine ⟨?_, v2, ?_, (swapRemove_nodup _ _ node hx v4).1, v5⟩
      · intro hc
        exact v1 (swapRemove_subset _ _ node hx hc)
      · intro x hxm
        exact v3 x (swapRemove_subset _ _ node hx hxm)
    refine ⟨node, rfl, e1, e2, e3, fun hv => hVI (hVI1 hv), hB, ?_, ?_⟩
    · intro hn
      rw [e3]
      exact (swapRemove_nodup _ _ node hx hn).1
    · rw [e3]
      exact swapRemove_length _ _ node hx

/-- Totality of `remove_from_active_view_by_index` for in-bounds indices when
the passive cap is positive. -/
theorem remove_from_active_view_by_index_total (n : Node T) (i : Nat)
    (hi : i < n.active_view.length)
    (hP : 1 ≤ n.options.max_passive_view_size) :
    (remove_from_active_view_by_index n i).isSome := by
  have hx := List.get?_eq_get hi
  rw [remove_from_active_view_by_index_eq n i _ hx]
  exact add_to_passive_view_total _ _ hP

/-- What `remove_random_from_active_view_if_full` does to each field. -/
theorem remove_random_from_active_view_if_full_spec {n n' : Node T}
    (h : remove_random_from_active_view_if_full n = some n') :
    n'.id = n.id ∧ n'.options = n.options ∧
    (∀ x, x ∈ n'.active_view → x ∈ n.active_view) ∧
    (ViewInv n → ViewInv n') ∧
    (n.passive_view.length ≤ n.options.max_passive_view_size →
      n'.passive_view.length ≤ n.options.max_passive_view_size) ∧
    (n.active_view.Nodup → n'.active_view.Nodup) ∧
    (is_active_view_full n = true →
      n'.active_view.length + 1 = n.active_view.length) ∧
    (is_active_view_full n = false → n' = n) := by
  unfold remove_random_from_active_view_if_full at h
  by_cases hfull : is_active_view_full n
  · rw [if_pos hfull] at h
    by_cases hlen : 0 < n.active_view.length
    · rw [genRange_pos n.rng hlen] at h
      dsimp only at h
      obtain ⟨node, hx, e1, e2, eav, hVI, hB, hnd, hl⟩ :=
        remove_from_active_view_by_index_spec h
      refine ⟨e1, e2, ?_, hVI, hB, hnd, fun _ => hl, ?_⟩
      · intro x hxm
        rw [eav] at hxm
        exact swapRemove_subset _ _ node hx hxm
      · intro hf
        simp [hf] at hfull
    · exfalso
      have h0 : n.active_view.length = 0 := by omega
      rw [h0, genRange_zero] at h
      simp at h
  · rw [if_neg hfull] at h
    rw [Option.some_inj] at h
    subst h
    exact ⟨rfl, rfl, fun x hx => hx, fun hv => hv, fun hb => hb, fun hn => hn,
      fun hf => absurd hf hfull, fun _ => rfl⟩

/-- Totality of `remove_random_from_active_view_if_full` when both caps are
positive. -/
theorem remove_random_from_active_view_if_full_total (n : Node T)
    (hA : 1 ≤ n.options.max_active_view_size)
    (hP : 1 ≤ n.options.max_passive_view_size) :
    (remove_random_from_active_view_if_full n).isSome := by
  unfold remove_random_from_active_view_if_full
  by_cases hfull : is_active_view_full n
  · rw [if_pos hfull]
    have hlen : 0 < n.active_view.length := by
      have := (is_active_view_full_iff n).1 hfull
      omega
    rw [genRange_pos n.rng hlen]
    dsimp only
    exact remove_from_active_view_by_index_total _ _ (genRangeFn_lt n.rng hlen) hP
  · rw [if_neg hfull]
    rfl

/-- What `add_to_active_view` does to the id, options and invariants. -/
theorem add_to_active_view_spec {n n' : Node T} {node : T} {hp : Bool}
    (h : add_to_active_view n node hp = some n') :
    n'.id = n.id ∧ n'.options = n.options ∧
    (ViewInv n → ViewInv n') ∧
    (BoundsInv n → BoundsInv n') := by
  unfold add_to_active_view at h
  by_cases hg : node ∈ n.active_view ∨ node = n.id
  · rw [if_pos hg] at h
    rw [Option.some_inj] at h
    subst h
    exact ⟨rfl, rfl, fun hv => hv, fun hb => hb⟩
  · rw [if_neg hg] at h
    push_neg at hg
    obtain ⟨hga, hgi⟩ := hg
    cases hrr : remove_random_from_active_view_if_full n with
    | none =>
      rw [hrr] at h
      cases h
    | some n1 =>
      rw [hrr] at h
      dsimp only [sendAction, pushAction] at h
      rw [Option.some_inj] at h
      subst h
      obtain ⟨e1, e2, hsub, hVI, hBp, hnd, hfl, hnf⟩ :=
        remove_random_from_active_view_if_full_spec hrr
      obtain ⟨f1, f2, f3, f4, f5, fsub, fnd, flen⟩ :=
        remove_from_passive_view_spec n1 node
      refine ⟨by rw [f1, e1], by rw [f2, e2], ?_, ?_⟩
      · intro hv
        have hv1 := hVI hv
        obtain ⟨v1, v2, v3, v4, v5⟩ := hv1
        refine ⟨?_, ?_, ?_, ?_, (fnd v5).1⟩
        · rw [f1]
          intro hc
          rcases List.mem_append.1 hc with hc1 | hc2
          · rw [f3] at hc1
            exact v1 hc1
          · have : n1.id = node := by simpa using hc2
            rw [e1] at this
            exact hgi this.symm
        · rw [f1]
          intro hc
          have := fsub _ hc
          exact v2 this
        · intro x hxm hc
          rcases List.mem_append.1 hxm with hx1 | hx2
          · rw [f3] at hx1
            exact v3 x hx1 (fsub _ hc)
          · have hxn : x = node := by simpa using hx2
            subst hxn
            exact (fnd v5).2 hc
        · rw [List.nodup_append]
          refine ⟨by rw [f3]; exact v4, List.nodup_singleton node, ?_⟩
          intro y hy hy2
          rw [List.mem_singleton] at hy2
          subst hy2
          rw [f3] at hy
          exact hga (hsub _ hy)
      · intro ⟨ba, bp⟩
        have goal1 : ((remove_from_passive_view n1 node).active_view ++
            [node]).length ≤
            (remove_from_passive_view n1 node).options.max_active_view_size := by
          rw [List.length_append, List.length_singleton, f3, f2, e2]
          by_cases hfull : is_active_view_full n
          · have := hfl hfull
            omega
          · have h5 := hnf (by simpa using hfull)
            have hlt : ¬ n.options.max_active_view_size ≤
                n.active_view.length :=
              fun hc => hfull ((is_active_view_full_iff n).2 hc)
            rw [h5]
            omega
        have goal2 : (remove_from_passive_view n1 node).passive_view.length ≤
            (remove_from_passive_view n1 node).options.max_passive_view_size := by
          rw [f2, e2]
          have := hBp bp
          omega
        exact ⟨goal1, goal2⟩

/-- Totality of `add_to_active_view` when both caps are positive. -/
theorem add_to_active_view_total (n : Node T) (node : T) (hp : Bool)
    (hA : 1 ≤ n.options.max_active_view_size)
    (hP : 1 ≤ n.options.max_passive_view_size) :
    (add_to_active_view n node hp).isSome := by
  unfold add_to_active_view
  by_cases hg : node ∈ n.active_view ∨ node = n.id
  · rw [if_pos hg]; rfl
  · rw [if_neg hg]
    have := remove_random_from_active_view_if_full_total n hA hP
    cases hrr : remove_random_from_active_view_if_full n with
    | none =>
      rw [hrr] at this
      simp at this
    | some n1 => rfl

/-- `ViewInv` transfers along equality of the id and the two views. -/
theorem ViewInv_eq_fields {n n' : Node T} (hid : n'.id = n.id)
    (ha : n'.active_view = n.active_view)
    (hp : n'.passive_view = n.passive_view) : ViewInv n → ViewInv n' :=
  ViewInv_congr hid (by rw [ha]) (by rw [hp])

/-- `BoundsInv` transfers along equality of options and view lengths. -/
theorem BoundsInv_eq_fields {n n' : Node T} (hopt : n'.options = n.options)
    (ha : n'.active_view.length = n.active_view.length)
    (hp : n'.passive_view.length = n.passive_view.length) :
    BoundsInv n → BoundsInv n' := by
  intro ⟨b1, b2⟩
  exact ⟨by rw [hopt, ha]; exact b1, by rw [hopt, hp]; exact b2⟩

/-- Both invariants survive `add_to_passive_view`. -/
theorem add_to_passive_view_inv {n n' : Node T} {node : T}
    (h : add_to_passive_view n node = some n') :
    n'.id = n.id ∧ n'.options = n.options ∧
    (ViewInv n → ViewInv n') ∧ (BoundsInv n → BoundsInv n') := by
  obtain ⟨e1, e2, e3, e4, hsub, hVI, hB⟩ := add_to_passive_view_spec h
  refine ⟨e1, e2, hVI, ?_⟩
  intro ⟨b1, b2⟩
  exact ⟨by rw [e2, e3]; exact b1, by rw [e2]; exact hB b2⟩

/-- Both invariants survive `remove_from_passive_view`. -/
theorem remove_from_passive_view_inv (n : Node T) (node : T) :
    (ViewInv n → ViewInv (remove_from_passive_view n node)) ∧
    (BoundsInv n → BoundsInv (remove_from_passive_view n node)) := by
  obtain ⟨f1, f2, f3, f4, f5, fsub, fnd, flen⟩ :=
    remove_from_passive_view_spec n node
  constructor
  · intro ⟨v1, v2, v3, v4, v5⟩
    refine ⟨by rw [f1, f3]; exact v1, ?_, ?_, by rw [f3]; exact v4, (fnd v5).1⟩
    · rw [f1]
      intro hc
      exact v2 (fsub _ hc)
    · intro x hx hc
      rw [f3] at hx
      exact v3 x hx (fsub _ hc)
  · intro ⟨b1, b2⟩
    exact ⟨by rw [f2, f3]; exact b1, by rw [f2]; omega⟩

/-- `fill_active_view` only sends: the id, options and views are unchanged. -/
theorem fill_active_view_fields (n : Node T) :
    (fill_active_view n).id = n.id ∧
    (fill_active_view n).options = n.options ∧
    (fill_active_view n).active_view = n.active_view ∧
    (fill_active_view n).passive_view = n.passive_view := by
  unfold fill_active_view
  by_cases hfull : is_active_view_full n
  · rw [if_neg (by simp [hfull])]
    exact ⟨rfl, rfl, rfl, rfl⟩
  · rw [if_pos (by simp [Bool.not_eq_true] at hfull ⊢; exact hfull)]
    unfold select_random_from_passive_view
    by_cases hemp : n.passive_view.isEmpty
    · rw [if_pos hemp]
      exact ⟨rfl, rfl, rfl, rfl⟩
    · rw [if_neg hemp]
      dsimp only
      cases hx : n.passive_view.get? (genRangeFn n.rng 0 n.passive_view.length) with
      | some node => exact ⟨rfl, rfl, rfl, rfl⟩
      | none => exact ⟨rfl, rfl, rfl, rfl⟩

/-- Both invariants survive `fill_active_view`. -/
theorem fill_active_view_inv (n : Node T) :
    (ViewInv n → ViewInv (fill_active_view n)) ∧
    (BoundsInv n → BoundsInv (fill_active_view n)) := by
  obtain ⟨f1, f2, f3, f4⟩ := fill_active_view_fields n
  exact ⟨ViewInv_eq_fields f1 f3 f4,
    BoundsInv_eq_fields f2 (by rw [f3]) (by rw [f4])⟩

/-- A fold that only appends `Send` actions leaves the other fields alone. -/
theorem foldl_sendAction_fields (l : List T) (f : T → ProtocolMessage T) :
    ∀ n : Node T,
    (l.foldl (fun acc x => sendAction acc x (f x)) n).id = n.id ∧
    (l.foldl (fun acc x => sendAction acc x (f x)) n).options = n.options ∧
    (l.foldl (fun acc x => sendAction acc x (f x)) n).active_view =
      n.active_view ∧
    (l.foldl (fun acc x => sendAction acc x (f x)) n).passive_view =
      n.passive_view := by
  induction l with
  | nil => intro n; exact ⟨rfl, rfl, rfl, rfl⟩
  | cons y ys ih =>
    intro n
    obtain ⟨a, b, c, d⟩ := ih (sendAction n y (f y))
    exact ⟨a, b, c, d⟩

/-- `disconnect_unless_active_view_node` only appends actions. -/
theorem disconnect_unless_active_view_node_fields (n : Node T) (node : T) :
    (disconnect_unless_active_view_node n node).id = n.id ∧
    (disconnect_unless_active_view_node n node).options = n.options ∧
    (disconnect_unless_active_view_node n node).active_view = n.active_view ∧
    (disconnect_unless_active_view_node n node).passive_view =
      n.passive_view := by
  unfold disconnect_unless_active_view_node
  by_cases hc : node ∉ n.active_view ∧ n.id ≠ node
  · rw [if_pos hc]
    exact ⟨rfl, rfl, rfl, rfl⟩
  · rw [if_neg hc]
    exact ⟨rfl, rfl, rfl, rfl⟩

/-- What the fold of `add_to_passive_view` over shuffled nodes does. -/
theorem add_shuffled_nodes_to_passive_view_spec :
    ∀ (nodes : List T) (n n' : Node T),
    add_shuffled_nodes_to_passive_view n nodes = some n' →
    n'.id = n.id ∧ n'.options = n.options ∧
    n'.active_view = n.active_view ∧ n'.actions = n.actions ∧
    (ViewInv n → ViewInv n') ∧
    (n.passive_view.length ≤ n.options.max_passive_view_size →
      n'.passive_view.length ≤ n.options.max_passive_view_size) := by
  intro nodes
  induction nodes with
  | nil =>
    intro n n' h
    rw [add_shuffled_nodes_to_passive_view, Option.some_inj] at h
    subst h
    exact ⟨rfl, rfl, rfl, rfl, fun hv => hv, fun hb => hb⟩
  | cons x xs ih =>
    intro n n' h
    rw [add_shuffled_nodes_to_passive_view] at h
    cases hax : add_to_passive_view n x with
    | none =>
      rw [hax] at h
      cases h
    | some n1 =>
      rw [hax] at h
      obtain ⟨e1, e2, e3, e4, hsub, hVI, hB⟩ := add_to_passive_view_spec hax
      obtain ⟨g1, g2, g3, g4, gVI, gB⟩ := ih n1 n' h
      refine ⟨by rw [g1, e1], by rw [g2, e2], by rw [g3, e3], by rw [g4, e4],
        fun hv => gVI (hVI hv), ?_⟩
      intro hb
      rw [e2] at gB
      exact gB (hB hb)

/-- Totality of the shuffled-nodes fold when the passive cap is positive. -/
theorem add_shuffled_nodes_to_passive_view_total :
    ∀ (nodes : List T) (n : Node T), 1 ≤ n.options.max_passive_view_size →
    (add_shuffled_nodes_to_passive_view n nodes).isSome := by
  intro nodes
  induction nodes with
  | nil => intro n hP; rfl
  | cons x xs ih =>
    intro n hP
    rw [add_shuffled_nodes_to_passive_view]
    have := add_to_passive_view_total n x hP
    cases hax : add_to_passive_view n x with
    | none =>
      rw [hax] at this
      simp at this
    | some n1 =>
      obtain ⟨e1, e2, e3, e4, hsub, hVI, hB⟩ := add_to_passive_view_spec hax
      exact ih n1 (by rw [e2]; exact hP)

/-- Both invariants survive `select_forwarding_destination`. -/
theorem select_forwarding_destination_inv (n : Node T) (excludes : List T) :
    (select_forwarding_destination n excludes).2.id = n.id ∧
    (select_forwarding_destination n excludes).2.options = n.options ∧
    (ViewInv n → ViewInv (select_forwarding_destination n excludes).2) ∧
    (BoundsInv n → BoundsInv (select_forwarding_destination n excludes).2) := by
  obtain ⟨P1, P2, P3, P4, P5, P6⟩ := select_forwarding_destination_spec n excludes
  exact ⟨P2, P4, ViewInv_congr P2 P1 (by rw [P3]),
    BoundsInv_eq_fields P4 P1.length_eq (by rw [P3])⟩

/-- Both invariants survive `handle_join`. -/
theorem handle_join_spec {n n' : Node T} {m : JoinMessage T}
    (h : handle_join n m = some n') :
    n'.id = n.id ∧ n'.options = n.options ∧
    (ViewInv n → ViewInv n') ∧ (BoundsInv n → BoundsInv n') := by
  unfold handle_join at h
  dsimp only at h
  cases ha : add_to_active_view n m.sender true with
  | none =>
    rw [ha] at h
    cases h
  | some n1 =>
    rw [ha] at h
    dsimp only at h
    rw [Option.some_inj] at h
    subst h
    obtain ⟨e1, e2, eVI, eB⟩ := add_to_active_view_spec ha
    obtain ⟨f1, f2, f3, f4⟩ := foldl_sendAction_fields
      (n1.active_view.filter (fun x => decide (x ≠ m.sender)))
      (fun _ => ProtocolMessage.forward_join n1.id m.sender
        (TimeToLive.new n1.options.active_random_walk_len)) n1
    exact ⟨by rw [f1, e1], by rw [f2, e2],
      fun hv => ViewInv_eq_fields f1 f3 f4 (eVI hv),
      fun hb => BoundsInv_eq_fields f2 (by rw [f3]) (by rw [f4]) (eB hb)⟩

/-- Totality of `handle_join` when both caps are positive. -/
theorem handle_join_total (n : Node T) (m : JoinMessage T)
    (hA : 1 ≤ n.options.max_active_view_size)
    (hP : 1 ≤ n.options.max_passive_view_size) : (handle_join n m).isSome := by
  unfold handle_join
  dsimp only
  have := add_to_active_view_total n m.sender true hA hP
  cases ha : add_to_active_view n m.sender true with
  | none =>
    rw [ha] at this
    simp at this
  | some n1 => rfl

/-- Both invariants survive `handle_neighbor`. -/
theorem handle_neighbor_spec {n n' : Node T} {m : NeighborMessage T}
    (h : handle_neighbor n m = some n') :
    n'.id = n.id ∧ n'.options = n.options ∧
    (ViewInv n → ViewInv n') ∧ (BoundsInv n → BoundsInv n') := by
  unfold handle_neighbor at h
  by_cases hc : (m.high_priority || !is_active_view_full n)
  · rw [if_pos hc] at h
    exact add_to_active_view_spec h
  · rw [if_neg hc] at h
    rw [Option.some_inj] at h
    subst h
    exact ⟨rfl, rfl, fun hv => hv, fun hb => hb⟩

/-- Totality of `handle_neighbor` when both caps are positive. -/
theorem handle_neighbor_total (n : Node T) (m : NeighborMessage T)
    (hA : 1 ≤ n.options.max_active_view_size)
    (hP : 1 ≤ n.options.max_passive_view_size) :
    (handle_neighbor n m).isSome := by
  unfold handle_neighbor
  by_cases hc : (m.high_priority || !is_active_view_full n)
  · rw [if_pos hc]
    exact add_to_active_view_total n m.sender false hA hP
  · rw [if_neg hc]
    rfl

/-- Both invariants survive `handle_forward_join`. -/
theorem handle_forward_join_spec {n n' : Node T} {m : ForwardJoinMessage T}
    (h : handle_forward_join n m = some n') :
    n'.id = n.id ∧ n'.options = n.options ∧
    (ViewInv n → ViewInv n') ∧ (BoundsInv n → BoundsInv n') := by
  unfold handle_forward_join at h
  by_cases hexp : (m.ttl.is_expired || n.active_view.isEmpty)
  · rw [if_pos hexp] at h
    exact add_to_active_view_spec h
  · rw [if_neg hexp] at h
    have step1 : ∀ n1 : Node T,
        (if m.ttl.as_u8 = n.options.passive_random_walk_len then
          add_to_passive_view n m.new_node
        else some n) = some n1 →
        n1.id = n.id ∧ n1.options = n.options ∧
        (ViewInv n → ViewInv n1) ∧ (BoundsInv n → BoundsInv n1) := by
      intro n1 h1
      by_cases hprwl : m.ttl.as_u8 = n.options.passive_random_walk_len
      · rw [if_pos hprwl] at h1
        exact add_to_passive_view_inv h1
      · rw [if_neg hprwl] at h1
        rw [Option.some_inj] at h1
        subst h1
        exact ⟨rfl, rfl, fun hv => hv, fun hb => hb⟩
    cases h1 : (if m.ttl.as_u8 = n.options.passive_random_walk_len then
        add_to_passive_view n m.new_node
      else some n) with
    | none =>
      rw [h1] at h
      cases h
    | some n1 =>
      rw [h1] at h
      dsimp only at h
      obtain ⟨e1, e2, eVI, eB⟩ := step1 n1 h1
      obtain ⟨s1, s2, sVI, sB⟩ :=
        select_forwarding_destination_inv n1 [m.sender]
      cases hsel : select_forwarding_destination n1 [m.sender] with
      | mk d n2 =>
        rw [hsel] at h s1 s2 sVI sB
        dsimp only at s1 s2 sVI sB
        cases d with
        | some next =>
          dsimp only at h
          rw [Option.some_inj] at h
          subst h
          exact ⟨s1.trans e1, s2.trans e2,
            fun hv => sVI (eVI hv), fun hb => sB (eB hb)⟩
        | none =>
          dsimp only at h
          obtain ⟨t1, t2, tVI, tB⟩ := add_to_active_view_spec h
          exact ⟨t1.trans (s1.trans e1), t2.trans (s2.trans e2),
            fun hv => tVI (sVI (eVI hv)), fun hb => tB (sB (eB hb))⟩

/-- Totality of `handle_forward_join` when both caps are positive. -/
theorem handle_forward_join_total (n : Node T) (m : ForwardJoinMessage T)
    (hA : 1 ≤ n.options.max_active_view_size)
    (hP : 1 ≤ n.options.max_passive_view_size) :
    (handle_forward_join n m).isSome := by
  unfold handle_forward_join
  by_cases hexp : (m.ttl.is_expired || n.active_view.isEmpty)
  · rw [if_pos hexp]
    exact add_to_active_view_total n m.new_node true hA hP
  · rw [if_neg hexp]
    have htot : (if m.ttl.as_u8 = n.options.passive_random_walk_len then
        add_to_passive_view n m.new_node
      else some n).isSome := by
      by_cases hprwl : m.ttl.as_u8 = n.options.passive_random_walk_len
      · rw [if_pos hprwl]
        exact add_to_passive_view_total n m.new_node hP
      · rw [if_neg hprwl]
        rfl
    cases h1 : (if m.ttl.as_u8 = n.options.passive_random_walk_len then
        add_to_passive_view n m.new_node
      else some n) with
    | none =>
      rw [h1] at htot
      simp at htot
    | some n1 =>
      dsimp only
      have step1 : n1.id = n.id ∧ n1.options = n.options ∧
          (ViewInv n → ViewInv n1) ∧ (BoundsInv n → BoundsInv n1) := by
        by_cases hprwl : m.ttl.as_u8 = n.options.passive_random_walk_len
        · rw [if_pos hprwl] at h1
          exact add_to_passive_view_inv h1
        · rw [if_neg hprwl] at h1
          rw [Option.some_inj] at h1
          subst h1
          exact ⟨rfl, rfl, fun hv => hv, fun hb => hb⟩
      obtain ⟨s1, s2, sVI, sB⟩ :=
        select_forwarding_destination_inv n1 [m.sender]
      cases hsel : select_forwarding_destination n1 [m.sender] with
      | mk d n2 =>
        rw [hsel] at s1 s2
        dsimp only at s1 s2
        cases d with
        | some next => rfl
        | none =>
          dsimp only
          exact add_to_active_view_total n2 m.new_node true
            (by rw [s2, step1.2.1]; exact hA)
            (by rw [s2, step1.2.1]; exact hP)

/-- Both invariants survive `handle_shuffle`. -/
theorem handle_shuffle_spec {n n' : Node T} {m : ShuffleMessage T}
    (h : handle_shuffle n m = some n') :
    n'.id = n.id ∧ n'.options = n.options ∧
    (ViewInv n → ViewInv n') ∧ (BoundsInv n → BoundsInv n') := by
  unfold handle_shuffle at h
  by_cases hexp : m.ttl.is_expired
  · rw [if_pos hexp] at h
    cases hsh : rngShuffle n.passive_view n.rng with
    | mk pv g =>
      rw [hsh] at h
      dsimp only at h
      have hperm : pv.Perm n.passive_view := by
        have := rngShuffle_perm n.passive_view n.rng
        rw [hsh] at this
        exact this
      obtain ⟨g1, g2, g3, g4, gVI, gB⟩ :=
        add_shuffled_nodes_to_passive_view_spec m.nodes _ n' h
      refine ⟨g1, g2, ?_, ?_⟩
      · intro hv
        exact gVI (ViewInv_congr (n := n) rfl (List.Perm.refl n.active_view)
          hperm hv)
      · intro ⟨b1, b2⟩
        refine ⟨by rw [g2, g3]; exact b1, ?_⟩
        rw [g2]
        refine gB ?_
        show pv.length ≤ n.options.max_passive_view_size
        rw [hperm.length_eq]
        exact b2
  · rw [if_neg hexp] at h
    obtain ⟨s1, s2, sVI, sB⟩ :=
      select_forwarding_destination_inv n [m.origin, m.sender]
    cases hsel : select_forwarding_destination n [m.origin, m.sender] with
    | mk d n1 =>
      rw [hsel] at h s1 s2 sVI sB
      cases d with
      | some dest =>
        dsimp only at h
        rw [Option.some_inj] at h
        subst h
        exact ⟨s1, s2, sVI, sB⟩
      | none =>
        dsimp only at h
        rw [Option.some_inj] at h
        subst h
        exact ⟨s1, s2, sVI, sB⟩

/-- Totality of `handle_shuffle` when the passive cap is positive. -/
theorem handle_shuffle_total (n : Node T) (m : ShuffleMessage T)
    (hP : 1 ≤ n.options.max_passive_view_size) :
    (handle_shuffle n m).isSome := by
  unfold handle_shuffle
  by_cases hexp : m.ttl.is_expired
  · rw [if_pos hexp]
    cases hsh : rngShuffle n.passive_view n.rng with
    | mk pv g =>
      dsimp only
      exact add_shuffled_nodes_to_passive_view_total m.nodes _ hP
  · rw [if_neg hexp]
    cases hsel : select_forwarding_destination n [m.origin, m.sender] with
    | mk d n1 =>
      cases d with
      | some dest => rfl
      | none => rfl

/-- Both invariants survive `handle_shuffle_reply`. -/
theorem handle_shuffle_reply_spec {n n' : Node T} {m : ShuffleReplyMessage T}
    (h : handle_shuffle_reply n m = some n') :
    n'.id = n.id ∧ n'.options = n.options ∧
    (ViewInv n → ViewInv n') ∧ (BoundsInv n → BoundsInv n') := by
  obtain ⟨g1, g2, g3, g4, gVI, gB⟩ :=
    add_shuffled_nodes_to_passive_view_spec m.nodes n n' h
  refine ⟨g1, g2, gVI, ?_⟩
  intro ⟨b1, b2⟩
  exact ⟨by rw [g2, g3]; exact b1, by rw [g2]; exact gB b2⟩

/-- Totality of `handle_shuffle_reply` when the passive cap is positive. -/
theorem handle_shuffle_reply_total (n : Node T) (m : ShuffleReplyMessage T)
    (hP : 1 ≤ n.options.max_passive_view_size) :
    (handle_shuffle_reply n m).isSome :=
  add_shuffled_nodes_to_passive_view_total m.nodes n hP

/-- What `remove_from_active_view` does to the state. -/
theorem remove_from_active_view_spec {n : Node T} {node : T} {removed : Bool}
    {n1 : Node T} (h : remove_from_active_view n node = some (removed, n1)) :
    n1.id = n.id ∧ n1.options = n.options ∧
    (ViewInv n → ViewInv n1) ∧ (BoundsInv n → BoundsInv n1) ∧
    (removed = false → n1 = n) := by
  unfold remove_from_active_view at h
  cases hp : position node n.active_view with
  | none =>
    rw [hp] at h
    dsimp only at h
    rw [Option.some_inj, Prod.mk.injEq] at h
    obtain ⟨hr, hn⟩ := h
    subst hn
    exact ⟨rfl, rfl, fun hv => hv, fun hb => hb, fun _ => rfl⟩
  | some i =>
    rw [hp] at h
    dsimp only at h
    rw [Option.map_eq_some'] at h
    obtain ⟨n2, h2, heq⟩ := h
    rw [Prod.mk.injEq] at heq
    obtain ⟨hr, hn⟩ := heq
    subst hn
    obtain ⟨nd, hx, e1, e2, eav, hVI, hB, hnd, hl⟩ :=
      remove_from_active_view_by_index_spec h2
    refine ⟨e1, e2, hVI, ?_, ?_⟩
    · intro ⟨b1, b2⟩
      refine ⟨by rw [e2]; omega, by rw [e2]; exact hB b2⟩
    · intro hc
      rw [← hr] at hc
      cases hc
/-- Totality of `remove_from_active_view` when the passive cap is positive. -/
theorem remove_from_active_view_total (n : Node T) (node : T)
    (hP : 1 ≤ n.options.max_passive_view_size) :
    (remove_from_active_view n node).isSome := by
  unfold remove_from_active_view
  cases hp : position node n.active_view with
  | none => rfl
  | some i =>
    dsimp only
    have hx := position_some n.active_view node i hp
    have hi : i < n.active_view.length := by
      by_contra hge
      rw [List.get?_eq_none.2 (by omega)] at hx
      cases hx
    have := remove_from_active_view_by_index_total n i hi hP
    cases hb : remove_from_active_view_by_index n i with
    | none =>
      rw [hb] at this
      simp at this
    | some n2 => rfl

/-- Both invariants survive `handle_disconnect`. -/
theorem handle_disconnect_spec {n n' : Node T} {m : DisconnectMessage T}
    (h : handle_disconnect n m = some n') :
    n'.id = n.id ∧ n'.options = n.options ∧
    (ViewInv n → ViewInv n') ∧ (BoundsInv n → BoundsInv n') := by
  unfold handle_disconnect at h
  cases hrm : remove_from_active_view n m.sender with
  | none =>
    rw [hrm] at h
    cases h
  | some p =>
    obtain ⟨removed, n1⟩ := p
    rw [hrm] at h
    dsimp only at h
    obtain ⟨e1, e2, eVI, eB, hnr⟩ := remove_from_active_view_spec hrm
    have hn2 : ∀ n2 : Node T,
        n2 = (if removed then
          fill_active_view (remove_from_passive_view n1 m.sender) else n1) →
        n2.id = n1.id ∧ n2.options = n1.options ∧
        (ViewInv n1 → ViewInv n2) ∧ (BoundsInv n1 → BoundsInv n2) := by
      intro n2 h2
      cases removed with
      | false =>
        rw [if_neg (by simp)] at h2
        subst h2
        exact ⟨rfl, rfl, fun hv => hv, fun hb => hb⟩
      | true =>
        rw [if_pos rfl] at h2
        subst h2
        obtain ⟨f1, f2, f3, f4, f5, fsub, fnd, flen⟩ :=
          remove_from_passive_view_spec n1 m.sender
        obtain ⟨rVI, rB⟩ := remove_from_passive_view_inv n1 m.sender
        obtain ⟨q1, q2, q3, q4⟩ :=
          fill_active_view_fields (remove_from_passive_view n1 m.sender)
        obtain ⟨qVI, qB⟩ :=
          fill_active_view_inv (remove_from_passive_view n1 m.sender)
        exact ⟨by rw [q1, f1], by rw [q2, f2],
          fun hv => qVI (rVI hv), fun hb => qB (rB hb)⟩
    obtain ⟨d1, d2, dVI, dB⟩ := hn2 _ rfl
    by_cases halive : m.alive
    · rw [if_pos halive] at h
      obtain ⟨t1, t2, tVI, tB⟩ := add_to_passive_view_inv h
      exact ⟨by rw [t1, d1, e1], by rw [t2, d2, e2],
        fun hv => tVI (dVI (eVI hv)), fun hb => tB (dB (eB hb))⟩
    · rw [if_neg halive] at h
      rw [Option.some_inj] at h
      subst h
      exact ⟨by rw [d1, e1], by rw [d2, e2],
        fun hv => dVI (eVI hv), fun hb => dB (eB hb)⟩

/-- Totality of `handle_disconnect` when the passive cap is positive. -/
theorem handle_disconnect_total (n : Node T) (m : DisconnectMessage T)
    (hP : 1 ≤ n.options.max_passive_view_size) :
    (handle_disconnect n m).isSome := by
  unfold handle_disconnect
  have := remove_from_active_view_total n m.sender hP
  cases hrm : remove_from_active_view n m.sender with
  | none =>
    rw [hrm] at this
    simp at this
  | some p =>
    obtain ⟨removed, n1⟩ := p
    dsimp only
    obtain ⟨e1, e2, eVI, eB, hnr⟩ := remove_from_active_view_spec hrm
    have hopt : (if removed then
        fill_active_view (remove_from_passive_view n1 m.sender)
      else n1).options = n1.options := by
      cases removed with
      | false => rw [if_neg (by simp)]
      | true =>
        rw [if_pos rfl]
        rw [(fill_active_view_fields _).2.1,
          (remove_from_passive_view_spec n1 m.sender).2.1]
    by_cases halive : m.alive
    · rw [if_pos halive]
      exact add_to_passive_view_total _ _ (by rw [hopt, e2]; exact hP)
    · rw [if_neg halive]
      rfl

/-- Both invariants survive `shuffle_passive_view`. -/
theorem shuffle_passive_view_spec (n : Node T) :
    (shuffle_passive_view n).id = n.id ∧
    (shuffle_passive_view n).options = n.options ∧
    (ViewInv n → ViewInv (shuffle_passive_view n)) ∧
    (BoundsInv n → BoundsInv (shuffle_passive_view n)) := by
  unfold shuffle_passive_view select_random_from_active_view
  by_cases hemp : n.active_view.isEmpty
  · rw [if_pos hemp]
    exact ⟨rfl, rfl, fun hv => hv, fun hb => hb⟩
  · rw [if_neg hemp]
    dsimp only
    cases hx : n.active_view.get? (genRangeFn n.rng 0 n.active_view.length) with
    | none => exact ⟨rfl, rfl, fun hv => hv, fun hb => hb⟩
    | some node =>
      dsimp only
      cases hsh1 : rngShuffle n.passive_view (StdRng.advance n.rng) with
      | mk pv g1 =>
        dsimp only
        cases hsh2 : rngShuffle n.active_view g1 with
        | mk av g2 =>
          dsimp only
          have hpperm : pv.Perm n.passive_view := by
            have := rngShuffle_perm n.passive_view (StdRng.advance n.rng)
            rw [hsh1] at this
            exact this
          have haperm : av.Perm n.active_view := by
            have := rngShuffle_perm n.active_view g1
            rw [hsh2] at this
            exact this
          refine ⟨rfl, rfl, ?_, ?_⟩
          · intro hv
            exact ViewInv_congr (n := n) rfl haperm hpperm hv
          · intro ⟨b1, b2⟩
            exact ⟨by show av.length ≤ _; rw [haperm.length_eq]; exact b1,
              by show pv.length ≤ _; rw [hpperm.length_eq]; exact b2⟩

/-- `sync_active_view` only sends. -/
theorem sync_active_view_spec (n : Node T) :
    (sync_active_view n).id = n.id ∧
    (sync_active_view n).options = n.options ∧
    (sync_active_view n).active_view = n.active_view ∧
    (sync_active_view n).passive_view = n.passive_view :=
  foldl_sendAction_fields n.active_view
    (fun _ => ProtocolMessage.neighbor n.id false) n

/-- Both invariants survive `handle_protocol_message`. -/
theorem handle_protocol_message_spec {n n' : Node T} {m : ProtocolMessage T}
    (h : handle_protocol_message n m = some n') :
    n'.id = n.id ∧ n'.options = n.options ∧
    (ViewInv n → ViewInv n') ∧ (BoundsInv n → BoundsInv n') := by
  have hdu : ∀ (n1 : Node T) (s : T),
      (disconnect_unless_active_view_node n1 s).id = n1.id ∧
      (disconnect_unless_active_view_node n1 s).options = n1.options ∧
      (ViewInv n1 → ViewInv (disconnect_unless_active_view_node n1 s)) ∧
      (BoundsInv n1 → BoundsInv (disconnect_unless_active_view_node n1 s)) := by
    intro n1 s
    obtain ⟨q1, q2, q3, q4⟩ := disconnect_unless_active_view_node_fields n1 s
    exact ⟨q1, q2, ViewInv_eq_fields q1 q3 q4,
      BoundsInv_eq_fields q2 (by rw [q3]) (by rw [q4])⟩
  cases m with
  | Join jm =>
    rw [handle_protocol_message] at h
    rw [Option.map_eq_some'] at h
    obtain ⟨n1, h1, h2⟩ := h
    subst h2
    obtain ⟨e1, e2, eVI, eB⟩ := handle_join_spec h1
    obtain ⟨q1, q2, qVI, qB⟩ := hdu n1 jm.sender
    exact ⟨q1.trans e1, q2.trans e2, fun hv => qVI (eVI hv),
      fun hb => qB (eB hb)⟩
  | ForwardJoin fm =>
    rw [handle_protocol_message] at h
    rw [Option.map_eq_some'] at h
    obtain ⟨n1, h1, h2⟩ := h
    subst h2
    obtain ⟨e1, e2, eVI, eB⟩ := handle_forward_join_spec h1
    obtain ⟨q1, q2, qVI, qB⟩ := hdu n1 fm.sender
    exact ⟨q1.trans e1, q2.trans e2, fun hv => qVI (eVI hv),
      fun hb => qB (eB hb)⟩
  | Neighbor nm =>
    rw [handle_protocol_message] at h
    rw [Option.map_eq_some'] at h
    obtain ⟨n1, h1, h2⟩ := h
    subst h2
    obtain ⟨e1, e2, eVI, eB⟩ := handle_neighbor_spec h1
    obtain ⟨q1, q2, qVI, qB⟩ := hdu n1 nm.sender
    exact ⟨q1.trans e1, q2.trans e2, fun hv => qVI (eVI hv),
      fun hb => qB (eB hb)⟩
  | Shuffle sm =>
    rw [handle_protocol_message] at h
    rw [Option.map_eq_some'] at h
    obtain ⟨n1, h1, h2⟩ := h
    subst h2
    obtain ⟨e1, e2, eVI, eB⟩ := handle_shuffle_spec h1
    obtain ⟨q1, q2, qVI, qB⟩ := hdu n1 sm.sender
    exact ⟨q1.trans e1, q2.trans e2, fun hv => qVI (eVI hv),
      fun hb => qB (eB hb)⟩
  | ShuffleReply rm =>
    rw [handle_protocol_message] at h
    rw [Option.map_eq_some'] at h
    obtain ⟨n1, h1, h2⟩ := h
    subst h2
    obtain ⟨e1, e2, eVI, eB⟩ := handle_shuffle_reply_spec h1
    obtain ⟨q1, q2, qVI, qB⟩ := hdu n1 rm.sender
    exact ⟨q1.trans e1, q2.trans e2, fun hv => qVI (eVI hv),
      fun hb => qB (eB hb)⟩
  | Disconnect dm =>
    rw [handle_protocol_message] at h
    exact handle_disconnect_spec h

/-- Totality of `handle_protocol_message` when both caps are positive. -/
theorem handle_protocol_message_total (n : Node T) (m : ProtocolMessage T)
    (hA : 1 ≤ n.options.max_active_view_size)
    (hP : 1 ≤ n.options.max_passive_view_size) :
    (handle_protocol_message n m).isSome := by
  cases m with
  | Join jm =>
    rw [handle_protocol_message]
    rw [Option.isSome_map']
    exact handle_join_total n jm hA hP
  | ForwardJoin fm =>
    rw [handle_protocol_message]
    rw [Option.isSome_map']
    exact handle_forward_join_total n fm hA hP
  | Neighbor nm =>
    rw [handle_protocol_message]
    rw [Option.isSome_map']
    exact handle_neighbor_total n nm hA hP
  | Shuffle sm =>
    rw [handle_protocol_message]
    rw [Option.isSome_map']
    exact handle_shuffle_total n sm hP
  | ShuffleReply rm =>
    rw [handle_protocol_message]
    rw [Option.isSome_map']
    exact handle_shuffle_reply_total n rm hP
  | Disconnect dm =>
    rw [handle_protocol_message]
    exact handle_disconnect_total n dm hP

/-- `poll_action` pops the queue front and changes nothing else. -/
theorem poll_action_fields (n : Node T) :
    (poll_action n).2.id = n.id ∧ (poll_action n).2.options = n.options ∧
    (poll_action n).2.active_view = n.active_view ∧
    (poll_action n).2.passive_view = n.passive_view ∧
    (poll_action n).2.rng = n.rng ∧
    (poll_action n).1 = n.actions.head? ∧
    (poll_action n).2.actions = n.actions.tail := by
  unfold poll_action
  cases h : n.actions with
  | nil =>
    refine ⟨rfl, rfl, rfl, rfl, rfl, rfl, ?_⟩
    rw [h]
    rfl
  | cons a rest => exact ⟨rfl, rfl, rfl, rfl, rfl, rfl, rfl⟩

/-- The view invariants survive every public call that returns. -/
theorem step_ViewInv {n n' : Node T} {c : Call T} (h : step n c = some n') :
    n'.id = n.id ∧ (ViewInv n → ViewInv n') := by
  cases c with
  | join contact =>
    rw [step, Option.some_inj] at h
    subst h
    exact ⟨rfl, fun hv => hv⟩
  | disconnect p alive =>
    rw [step] at h
    unfold disconnect at h
    obtain ⟨e1, e2, eVI, eB⟩ := handle_protocol_message_spec h
    exact ⟨e1, eVI⟩
  | handleMessage m =>
    rw [step] at h
    obtain ⟨e1, e2, eVI, eB⟩ := handle_protocol_message_spec h
    exact ⟨e1, eVI⟩
  | fillActiveView =>
    rw [step, Option.some_inj] at h
    subst h
    obtain ⟨q1, q2, q3, q4⟩ := fill_active_view_fields n
    exact ⟨q1, ViewInv_eq_fields q1 q3 q4⟩
  | syncActiveView =>
    rw [step, Option.some_inj] at h
    subst h
    obtain ⟨q1, q2, q3, q4⟩ := sync_active_view_spec n
    exact ⟨q1, ViewInv_eq_fields q1 q3 q4⟩
  | shufflePassiveView =>
    rw [step, Option.some_inj] at h
    subst h
    obtain ⟨q1, q2, qVI, qB⟩ := shuffle_passive_view_spec n
    exact ⟨q1, qVI⟩
  | pollAction =>
    rw [step, Option.some_inj] at h
    subst h
    obtain ⟨q1, q2, q3, q4, q5, q6, q7⟩ := poll_action_fields n
    exact ⟨q1, ViewInv_eq_fields q1 q3 q4⟩
  | setOptions o =>
    rw [step, Option.some_inj] at h
    subst h
    exact ⟨rfl, fun hv => hv⟩

/-- The size bounds survive every public call that returns, as long as a
runtime options adjustment never drops a cap below the current view size. -/
theorem step_BoundsInv {n n' : Node T} {c : Call T} (h : step n c = some n')
    (hset : ∀ o, c = Call.setOptions o →
      n.active_view.length ≤ o.max_active_view_size ∧
      n.passive_view.length ≤ o.max_passive_view_size) :
    BoundsInv n → BoundsInv n' := by
  cases c with
  | join contact =>
    rw [step, Option.some_inj] at h
    subst h
    exact fun hb => hb
  | disconnect p alive =>
    rw [step] at h
    unfold disconnect at h
    exact (handle_protocol_message_spec h).2.2.2
  | handleMessage m =>
    rw [step] at h
    exact (handle_protocol_message_spec h).2.2.2
  | fillActiveView =>
    rw [step, Option.some_inj] at h
    subst h
    obtain ⟨q1, q2, q3, q4⟩ := fill_active_view_fields n
    exact BoundsInv_eq_fields q2 (by rw [q3]) (by rw [q4])
  | syncActiveView =>
    rw [step, Option.some_inj] at h
    subst h
    obtain ⟨q1, q2, q3, q4⟩ := sync_active_view_spec n
    exact BoundsInv_eq_fields q2 (by rw [q3]) (by rw [q4])
  | shufflePassiveView =>
    rw [step, Option.some_inj] at h
    subst h
    exact (shuffle_passive_view_spec n).2.2.2
  | pollAction =>
    rw [step, Option.some_inj] at h
    subst h
    obtain ⟨q1, q2, q3, q4, q5, q6, q7⟩ := poll_action_fields n
    exact BoundsInv_eq_fields q2 (by rw [q3]) (by rw [q4])
  | setOptions o =>
    rw [step, Option.some_inj] at h
    subst h
    intro _
    exact hset o rfl

/-- Every public call returns when both caps are positive. -/
theorem step_total (n : Node T) (c : Call T)
    (hA : 1 ≤ n.options.max_active_view_size)
    (hP : 1 ≤ n.options.max_passive_view_size) : (step n c).isSome := by
  cases c with
  | join contact => rfl
  | disconnect p alive =>
    rw [step]
    unfold disconnect
    exact handle_protocol_message_total n _ hA hP
  | handleMessage m =>
    rw [step]
    exact handle_protocol_message_total n m hA hP
  | fillActiveView => rfl
  | syncActiveView => rfl
  | shufflePassiveView => rfl
  | pollAction => rfl
  | setOptions o => rfl

/-- The view invariants survive any sequence of public calls. -/
theorem runCalls_ViewInv : ∀ (calls : List (Call T)) (n n' : Node T),
    ViewInv n → runCalls n calls = some n' → ViewInv n' := by
  intro calls
  induction calls with
  | nil =>
    intro n n' hv h
    rw [runCalls, Option.some_inj] at h
    subst h
    exact hv
  | cons c cs ih =>
    intro n n' hv h
    rw [runCalls] at h
    cases hs : step n c with
    | none =>
      rw [hs] at h
      cases h
    | some n1 =>
      rw [hs] at h
      exact ih n1 n' ((step_ViewInv hs).2 hv) h

/-- The size bounds survive any sequence of public calls that contains no
runtime options adjustment. -/
theorem runCalls_BoundsInv : ∀ (calls : List (Call T)) (n n' : Node T),
    BoundsInv n → (∀ c ∈ calls, ∀ o, c ≠ Call.setOptions o) →
    runCalls n calls = some n' → BoundsInv n' := by
  intro calls
  induction calls with
  | nil =>
    intro n n' hb hno h
    rw [runCalls, Option.some_inj] at h
    subst h
    exact hb
  | cons c cs ih =>
    intro n n' hb hno h
    rw [runCalls] at h
    cases hs : step n c with
    | none =>
      rw [hs] at h
      cases h
    | some n1 =>
      rw [hs] at h
      have hb1 : BoundsInv n1 := step_BoundsInv hs
        (fun o ho => absurd ho (hno c (List.mem_cons_self c cs) o)) hb
      exact ih n1 n' hb1 (fun d hd o => hno d (List.mem_cons_of_mem c hd) o) h

/-- A fresh node satisfies the view invariants. -/
theorem with_options_ViewInv (node_id : T) (g : StdRng) (opts : NodeOptions) :
    ViewInv (with_options node_id g opts) := by
  refine ⟨?_, ?_, ?_, ?_, ?_⟩ <;> simp [with_options, ViewInv]

/-- A fresh node satisfies the size bounds. -/
theorem with_options_BoundsInv (node_id : T) (g : StdRng) (opts : NodeOptions) :
    BoundsInv (with_options node_id g opts) := by
  exact ⟨by simp [with_options], by simp [with_options]⟩

/-- `disconnect_unless_active_view_node` on a non-member appends exactly the
`Send(Disconnect)` and `Disconnect` housekeeping actions. -/
theorem disconnect_unless_active_view_node_eq (n1 : Node T) (s : T)
    (hmem : s ∉ n1.active_view) (hne : n1.id ≠ s) :
    disconnect_unless_active_view_node n1 s =
      { n1 with actions := n1.actions ++
        [Action.Send s (ProtocolMessage.disconnect n1.id true),
         Action.Disconnect s] } := by
  unfold disconnect_unless_active_view_node
  rw [if_pos ⟨hmem, hne⟩]
  dsimp only [sendAction, pushAction]
  rw [List.append_assoc]
  rfl

/-- A no-op `handle_disconnect`: a dead (`alive = false`) disconnect from a
peer outside the active view changes nothing. -/
theorem handle_disconnect_noop (n : Node T) (s : T) (hna : s ∉ n.active_view) :
    handle_disconnect n ⟨s, false⟩ = some n := by
  unfold handle_disconnect remove_from_active_view
  rw [(position_none _ _).2 hna]
  dsimp only
  rfl

/-! Concrete states used by witnesses and counterexamples. -/

/-- A deterministic random stream: every draw is 0. -/
def hvRng : StdRng := ⟨fun _ => 0, 0⟩

/-- A fresh node with id 0 and default options. -/
def hvNode0 : Node Nat := with_options 0 hvRng NodeOptions.default

/-- The node reached from `hvNode0` by handling `Join` from 1. -/
def hvW1 : Node Nat :=
  { id := 0,
    actions := [Action.Send 1 (ProtocolMessage.Neighbor ⟨0, true⟩),
                Action.Notify (Event.NeighborUp 1)],
    active_view := [1], passive_view := [], rng := hvRng,
    options := NodeOptions.default }

/-- `hvW1` with the RNG advanced once. -/
def hvW1adv : Node Nat := { hvW1 with rng := StdRng.advance hvRng }

/-- A node with id 0, empty active view and passive view `[5]`. -/
def hvP5 : Node Nat :=
  { id := 0, actions := [], active_view := [], passive_view := [5],
    rng := hvRng, options := NodeOptions.default }

/-- The call sequence of the C1 witness: one incoming `Join`. -/
def hvCallsW : List (Call Nat) :=
  [Call.handleMessage (ProtocolMessage.Join ⟨1⟩)]

/-- Calls exhibiting the C2 counterexample: admit a neighbor, then shrink the
active cap to 0 at runtime. -/
def hvCallsC2 : List (Call Nat) :=
  [Call.handleMessage (ProtocolMessage.Neighbor ⟨1, true⟩),
   Call.setOptions ⟨0, 24, 2, 2, 5, 2⟩]

/-- The state reached by `hvCallsC2`. -/
def hvW2 : Node Nat :=
  { id := 0,
    actions := [Action.Send 1 (ProtocolMessage.Neighbor ⟨0, false⟩),
                Action.Notify (Event.NeighborUp 1)],
    active_view := [1], passive_view := [], rng := hvRng,
    options := ⟨0, 24, 2, 2, 5, 2⟩ }

/-- A fresh node whose active cap is 0. -/
def hvNodeZero : Node Nat := with_options 0 hvRng ⟨0, 24, 2, 2, 5, 2⟩

/-- A fresh node whose passive cap is 0. -/
def hvNodeZeroP : Node Nat := with_options 0 hvRng ⟨4, 0, 2, 2, 5, 2⟩

/-- The state reached from `hvNode0` by `disconnect(1, alive=true)`. -/
def hvC8 : Node Nat :=
  { id := 0, actions := [], active_view := [], passive_view := [1],
    rng := hvRng, options := NodeOptions.default }

/-- A node whose passive view `[5]` is full (`max_passive_view_size = 1`). -/
def hvPFull : Node Nat :=
  { id := 0, actions := [], active_view := [], passive_view := [5],
    rng := hvRng, options := ⟨4, 1, 2, 2, 5, 2⟩ }

/-! The claims. -/

/-- C1: after every sequence of public calls that returns, on a node
constructed with any id, RNG and options, the local id is in neither view,
the views are disjoint, and neither view contains duplicates. -/
theorem claim_C1 (node_id : T) (g : StdRng) (opts : NodeOptions)
    (calls : List (Call T)) (n' : Node T)
    (h : runCalls (with_options node_id g opts) calls = some n') :
    n'.id ∉ n'.active_view ∧ n'.id ∉ n'.passive_view ∧
    (∀ x, x ∈ n'.active_view → x ∉ n'.passive_view) ∧
    n'.active_view.Nodup ∧ n'.passive_view.Nodup :=
  runCalls_ViewInv calls _ n' (with_options_ViewInv node_id g opts) h

/-- Witness for C1 at a concrete run: a fresh node handling `Join` from 1. -/
theorem claim_C1_witness :
    runCalls (with_options 0 hvRng NodeOptions.default) hvCallsW = some hvW1 ∧
    (hvW1.id ∉ hvW1.active_view ∧ hvW1.id ∉ hvW1.passive_view ∧
     (∀ x, x ∈ hvW1.active_view → x ∉ hvW1.passive_view) ∧
     hvW1.active_view.Nodup ∧ hvW1.passive_view.Nodup) :=
  ⟨rfl, claim_C1 0 hvRng NodeOptions.default hvCallsW hvW1 rfl⟩

/-- C2 counterexample: admitting a neighbor and then shrinking
`max_active_view_size` to 0 through the options leaves the active view above
the cap after the (options-adjusting) call returns. -/
theorem claim_C2_counterexample :
    runCalls (with_options 0 hvRng NodeOptions.default) hvCallsC2 =
      some hvW2 ∧
    ¬ hvW2.active_view.length ≤ hvW2.options.max_active_view_size :=
  ⟨rfl, by decide⟩

/-- C2 amended: both view-size caps hold after construction and after every
public call that returns, provided a runtime options adjustment never sets a
cap below the corresponding current view size. -/
theorem claim_C2_amended :
    (∀ (node_id : T) (g : StdRng) (opts : NodeOptions),
      (with_options node_id g opts).active_view.length ≤
        opts.max_active_view_size ∧
      (with_options node_id g opts).passive_view.length ≤
        opts.max_passive_view_size) ∧
    (∀ (n n' : Node T) (c : Call T),
      n.active_view.length ≤ n.options.max_active_view_size →
      n.passive_view.length ≤ n.options.max_passive_view_size →
      (∀ o, c = Call.setOptions o →
        n.active_view.length ≤ o.max_active_view_size ∧
        n.passive_view.length ≤ o.max_passive_view_size) →
      step n c = some n' →
      n'.active_view.length ≤ n'.options.max_active_view_size ∧
      n'.passive_view.length ≤ n'.options.max_passive_view_size) ∧
    (∀ (node_id : T) (g : StdRng) (opts : NodeOptions)
      (calls : List (Call T)) (n' : Node T),
      (∀ c ∈ calls, ∀ o, c ≠ Call.setOptions o) →
      runCalls (with_options node_id g opts) calls = some n' →
      n'.active_view.length ≤ n'.options.max_active_view_size ∧
      n'.passive_view.length ≤ n'.options.max_passive_view_size) := by
  refine ⟨?_, ?_, ?_⟩
  · intro node_id g opts
    exact with_options_BoundsInv node_id g opts
  · intro n n' c hb1 hb2 hset h
    exact step_BoundsInv h hset ⟨hb1, hb2⟩
  · intro node_id g opts calls n' hno h
    exact runCalls_BoundsInv calls _ n'
      (with_options_BoundsInv node_id g opts) hno h

/-- Witness for the amended C2 at a concrete step. -/
theorem claim_C2_witness :
    hvNode0.active_view.length ≤ hvNode0.options.max_active_view_size ∧
    (hvW1.active_view.length ≤ hvW1.options.max_active_view_size ∧
     hvW1.passive_view.length ≤ hvW1.options.max_passive_view_size) :=
  ⟨by decide,
   claim_C2_amended.2.1 hvNode0 hvW1
     (Call.handleMessage (ProtocolMessage.Join ⟨1⟩)) (by decide) (by decide)
     (fun o ho => nomatch ho) rfl⟩

/-- C3 counterexample: with `max_active_view_size = 0`, handling a `Join`
reaches `gen_range(0, 0)` inside `remove_random_from_active_view_if_full`,
which panics in rand 0.4 (modelled as `none`). -/
theorem claim_C3_counterexample :
    step hvNodeZero (Call.handleMessage (ProtocolMessage.Join ⟨1⟩)) = none ∧
    step hvNodeZeroP
      (Call.handleMessage (ProtocolMessage.ShuffleReply ⟨1, [1]⟩)) = none :=
  ⟨rfl, rfl⟩

/-- C3 amended: every public entry point is total whenever the node's current
options have `max_active_view_size ≥ 1` and `max_passive_view_size ≥ 1`. -/
theorem claim_C3_amended (n : Node T) (c : Call T)
    (hA : 1 ≤ n.options.max_active_view_size)
    (hP : 1 ≤ n.options.max_passive_view_size) :
    (step n c).isSome = true := step_total n c hA hP

/-- Witness for the amended C3 at a concrete step. -/
theorem claim_C3_witness :
    (step hvNode0
      (Call.handleMessage (ProtocolMessage.Join ⟨1⟩))).isSome = true :=
  claim_C3_amended hvNode0 _ (by decide) (by decide)

/-- C4: for each of the five non-`Disconnect` variants, if after the inner
handler the declared sender is outside the active view and differs from the
local id, the dispatcher appends exactly
`Send(sender, Disconnect{self, alive=true})` then `Disconnect(sender)`; the
`Disconnect` variant is dispatched without this housekeeping. -/
theorem claim_C4 (n : Node T) :
    (∀ (m : JoinMessage T) (n1 : Node T), handle_join n m = some n1 →
      m.sender ∉ n1.active_view → n1.id ≠ m.sender →
      handle_protocol_message n (ProtocolMessage.Join m) =
        some { n1 with actions := n1.actions ++
          [Action.Send m.sender (ProtocolMessage.disconnect n1.id true),
           Action.Disconnect m.sender] }) ∧
    (∀ (m : ForwardJoinMessage T) (n1 : Node T),
      handle_forward_join n m = some n1 →
      m.sender ∉ n1.active_view → n1.id ≠ m.sender →
      handle_protocol_message n (ProtocolMessage.ForwardJoin m) =
        some { n1 with actions := n1.actions ++
          [Action.Send m.sender (ProtocolMessage.disconnect n1.id true),
           Action.Disconnect m.sender] }) ∧
    (∀ (m : NeighborMessage T) (n1 : Node T), handle_neighbor n m = some n1 →
      m.sender ∉ n1.active_view → n1.id ≠ m.sender →
      handle_protocol_message n (ProtocolMessage.Neighbor m) =
        some { n1 with actions := n1.actions ++
          [Action.Send m.sender (ProtocolMessage.disconnect n1.id true),
           Action.Disconnect m.sender] }) ∧
    (∀ (m : ShuffleMessage T) (n1 : Node T), handle_shuffle n m = some n1 →
      m.sender ∉ n1.active_view → n1.id ≠ m.sender →
      handle_protocol_message n (ProtocolMessage.Shuffle m) =
        some { n1 with actions := n1.actions ++
          [Action.Send m.sender (ProtocolMessage.disconnect n1.id true),
           Action.Disconnect m.sender] }) ∧
    (∀ (m : ShuffleReplyMessage T) (n1 : Node T),
      handle_shuffle_reply n m = some n1 →
      m.sender ∉ n1.active_view → n1.id ≠ m.sender →
      handle_protocol_message n (ProtocolMessage.ShuffleReply m) =
        some { n1 with actions := n1.actions ++
          [Action.Send m.sender (ProtocolMessage.disconnect n1.id true),
           Action.Disconnect m.sender] }) ∧
    (∀ m : DisconnectMessage T,
      handle_protocol_message n (ProtocolMessage.Disconnect m) =
        handle_disconnect n m) := by
  refine ⟨?_, ?_, ?_, ?_, ?_, fun m => rfl⟩ <;>
    intro m n1 h1 hmem hne <;>
    rw [handle_protocol_message, h1, Option.map_some',
      disconnect_unless_active_view_node_eq n1 m.sender hmem hne]

/-- Witness for C4: a `ShuffleReply` from an unknown peer triggers the
housekeeping disconnect. -/
theorem claim_C4_witness :
    handle_protocol_message hvNode0 (ProtocolMessage.ShuffleReply ⟨1, []⟩) =
      some { hvNode0 with actions := hvNode0.actions ++
        [Action.Send 1 (ProtocolMessage.disconnect hvNode0.id true),
         Action.Disconnect 1] } :=
  (claim_C4 hvNode0).2.2.2.2.1 ⟨1, []⟩ hvNode0 rfl (by decide) (by decide)

/-- C5: every removal from the active view goes through
`remove_from_active_view_by_index`, which enqueues exactly
`Send(p, Disconnect{self, true})`, `Disconnect(p)`, `Notify(NeighborDown p)`
in this order and then hands `p` to the passive-add primitive; both the
random eviction and the lookup-based removal route through it. -/
theorem claim_C5 (n : Node T) :
    (∀ (i : Nat) (node : T), n.active_view.get? i = some node →
      remove_from_active_view_by_index n i =
        add_to_passive_view
          { n with active_view := swapRemove n.active_view i,
                   actions := n.actions ++
                     [Action.Send node (ProtocolMessage.disconnect n.id true),
                      Action.Disconnect node, Action.notify_down node] }
          node) ∧
    (is_active_view_full n = true → 0 < n.active_view.length →
      remove_random_from_active_view_if_full n =
        remove_from_active_view_by_index { n with rng := n.rng.advance }
          (genRangeFn n.rng 0 n.active_view.length)) ∧
    (∀ (node : T) (i : Nat), position node n.active_view = some i →
      remove_from_active_view n node =
        (remove_from_active_view_by_index n i).map (fun n1 => (true, n1))) := by
  refine ⟨fun i node h => remove_from_active_view_by_index_eq n i node h,
    ?_, ?_⟩
  · intro hfull hlen
    unfold remove_random_from_active_view_if_full
    rw [if_pos hfull, genRange_pos n.rng hlen]
  · intro node i hp
    unfold remove_from_active_view
    rw [hp]

/-- Witness for C5 on a node whose active view is `[1]`. -/
theorem claim_C5_witness :
    hvW1.active_view.get? 0 = some 1 ∧
    remove_from_active_view_by_index hvW1 0 =
      add_to_passive_view
        { hvW1 with active_view := swapRemove hvW1.active_view 0,
                    actions := hvW1.actions ++
                      [Action.Send 1 (ProtocolMessage.disconnect hvW1.id true),
                       Action.Disconnect 1, Action.notify_down 1] } 1 :=
  ⟨rfl, (claim_C5 hvW1).1 0 1 rfl⟩

/-- C6: `ForwardJoin` admits the joiner on expired TTL or empty active view;
otherwise, when the TTL equals PRWL the joiner is first inserted into the
passive view and the message is then forwarded with decremented TTL to a
chosen active member other than the sender, falling back to direct admission
when no such member exists; a chosen destination is always an active-view
member different from the sender. -/
theorem claim_C6 (n : Node T) (m : ForwardJoinMessage T) :
    (m.ttl.is_expired = true ∨ n.active_view = [] →
      handle_forward_join n m = add_to_active_view n m.new_node true) ∧
    (m.ttl.is_expired = false → n.active_view ≠ [] →
      m.ttl.as_u8 = n.options.passive_random_walk_len →
      handle_forward_join n m =
        (match add_to_passive_view n m.new_node with
         | none => none
         | some n1 =>
           match select_forwarding_destination n1 [m.sender] with
           | (some next, n2) =>
             some (sendAction n2 next
               (ProtocolMessage.forward_join n2.id m.new_node
                 m.ttl.decrement))
           | (none, n2) => add_to_active_view n2 m.new_node true)) ∧
    (∀ (next : T) (n2 : Node T),
      select_forwarding_destination n [m.sender] = (some next, n2) →
      next ∈ n2.active_view ∧ next ≠ m.sender) := by
  refine ⟨?_, ?_, ?_⟩
  · intro hc
    unfold handle_forward_join
    rw [if_pos]
    rcases hc with hc | hc
    · rw [hc]
      simp
    · rw [hc]
      simp
  · intro hexp hne hprwl
    unfold handle_forward_join
    rw [if_neg (by simp [hexp, List.isEmpty_iff, hne]), if_pos hprwl]
  · intro next n2 hsel
    obtain ⟨P1, P2, P3, P4, P5, P6⟩ :=
      select_forwarding_destination_spec n [m.sender]
    rw [hsel] at P6
    have hd := P6 next rfl
    have hd1 : next ∈ n2.active_view := hd.1
    have hd2 : next ∉ [m.sender] := hd.2
    refine ⟨hd1, ?_⟩
    intro hc
    exact hd2 (by rw [hc]; exact List.mem_singleton_self m.sender)

/-- The node `hvW1` after the passive insertion of 2. -/
def hvP1 : Node Nat := { hvW1 with passive_view := [2] }

/-- The node reached from `hvW1` by a `ForwardJoin` for 2 with TTL = PRWL. -/
def hvW6 : Node Nat :=
  { id := 0,
    actions := [Action.Send 1 (ProtocolMessage.Neighbor ⟨0, true⟩),
                Action.Notify (Event.NeighborUp 1),
                Action.Send 2 (ProtocolMessage.Neighbor ⟨0, true⟩),
                Action.Notify (Event.NeighborUp 2)],
    active_view := [1, 2], passive_view := [], rng := hvRng,
    options := NodeOptions.default }

/-- Evaluation of the scanning loop on `[1]` with `1` excluded. -/
theorem sfdLoop_eval1 : sfdLoop ([1] : List Nat) [1] 0 1 = ([1], 0) := by
  rw [sfdLoop]
  norm_num
  rw [sfdLoop]
  rfl

/-- Evaluation of the scanning loop on `[1]` with `7` excluded. -/
theorem sfdLoop_eval7 : sfdLoop ([7] : List Nat) [1] 0 1 = ([1], 1) := by
  rw [sfdLoop]
  norm_num
  rw [sfdLoop]
  rfl

/-- Evaluation of `select_forwarding_destination` on `hvP1` excluding 1. -/
theorem select_eval_excl1 :
    select_forwarding_destination hvP1 [1] = (none, hvP1) := by
  unfold select_forwarding_destination
  rw [show hvP1.active_view = [1] from rfl,
    show ([1] : List Nat).length = 1 from rfl, sfdLoop_eval1]
  rfl

/-- Evaluation of `select_forwarding_destination` on `hvW1` excluding 7. -/
theorem select_eval_excl7 :
    select_forwarding_destination hvW1 [7] = (some 1, hvW1adv) := by
  unfold select_forwarding_destination
  rw [show hvW1.active_view = [1] from rfl,
    show ([1] : List Nat).length = 1 from rfl, sfdLoop_eval7]
  rfl

/-- Witness for C6 with TTL = PRWL on a node whose active view is `[1]`. -/
theorem claim_C6_witness :
    handle_forward_join hvW1 ⟨1, 2, TimeToLive.new 2⟩ = some hvW6 ∧
    (1 ∈ hvW1adv.active_view ∧ (1 : Nat) ≠ 7) := by
  constructor
  · have heq := (claim_C6 hvW1 ⟨1, 2, TimeToLive.new 2⟩).2.1 rfl (by decide) rfl
    rw [heq]
    dsimp only
    rw [show add_to_passive_view hvW1 (2 : Nat) = some hvP1 from rfl]
    dsimp only
    rw [select_eval_excl1]
    rfl
  · exact (claim_C6 hvW1 ⟨7, 2, TimeToLive.new 2⟩).2.2 1 hvW1adv
      select_eval_excl7

/-- C7: an expired `Shuffle` replies to the origin with at most `|nodes|`
entries taken from the node's own (shuffled) passive view as it was before
the incoming nodes are merged, and then inserts every incoming node via the
passive-add primitive. -/
theorem claim_C7 (n : Node T) (m : ShuffleMessage T)
    (hexp : m.ttl.is_expired = true) :
    ∀ (pv : List T) (g : StdRng), rngShuffle n.passive_view n.rng = (pv, g) →
    handle_shuffle n m =
      add_shuffled_nodes_to_passive_view
        { n with passive_view := pv, rng := g,
                 actions := n.actions ++
                   [Action.Send m.origin
                     (ProtocolMessage.shuffle_reply n.id
                       (pv.take m.nodes.length))] }
        m.nodes ∧
    (pv.take m.nodes.length).length ≤ m.nodes.length ∧
    (∀ x, x ∈ pv.take m.nodes.length → x ∈ n.passive_view) := by
  intro pv g hsh
  have hperm : pv.Perm n.passive_view := by
    have := rngShuffle_perm n.passive_view n.rng
    rw [hsh] at this
    exact this
  refine ⟨?_, List.length_take_le _ _, ?_⟩
  · unfold handle_shuffle
    rw [if_pos hexp, hsh]
    rfl
  · intro x hx
    exact hperm.mem_iff.1 (List.take_subset _ _ hx)

/-- Witness for C7 on a node whose passive view is `[5]`. -/
theorem claim_C7_witness :
    handle_shuffle hvP5 ⟨1, 2, [3], TimeToLive.new 0⟩ =
      add_shuffled_nodes_to_passive_view
        { hvP5 with passive_view := [5], rng := hvRng,
                    actions := hvP5.actions ++
                      [Action.Send 2
                        (ProtocolMessage.shuffle_reply hvP5.id
                          (([5] : List Nat).take 1))] }
        [3] ∧
    (([5] : List Nat).take 1).length ≤ 1 ∧
    (∀ x, x ∈ ([5] : List Nat).take 1 → x ∈ hvP5.passive_view) :=
  claim_C7 hvP5 ⟨1, 2, [3], TimeToLive.new 0⟩ rfl [5] hvRng rfl

/-- C8 counterexample: disconnecting the unknown peer 1 with `alive = true`
is not a no-op: the peer is inserted into the passive view. -/
theorem claim_C8_counterexample :
    disconnect hvNode0 1 true = some hvC8 ∧
    hvC8.passive_view ≠ hvNode0.passive_view :=
  ⟨rfl, by decide⟩

/-- C8 amended: disconnecting an unknown peer enqueues no actions and leaves
the active view, id and options unchanged; with `alive = false` the state is
entirely unchanged, while with `alive = true` the peer (when distinct from
the local id) is inserted into the passive view: appended directly when the
view is not full, and otherwise after evicting a uniformly random passive
entry. -/
theorem claim_C8_amended (n : Node T) (p : T)
    (hpa : p ∉ n.active_view) (hpp : p ∉ n.passive_view) :
    disconnect n p false = some n ∧
    (∀ n', disconnect n p true = some n' →
      n'.actions = n.actions ∧ n'.active_view = n.active_view ∧
      n'.id = n.id ∧ n'.options = n.options) ∧
    (p ≠ n.id → is_passive_view_full n = false →
      disconnect n p true =
        some { n with passive_view := n.passive_view ++ [p] }) ∧
    (p ≠ n.id → is_passive_view_full n = true →
      0 < n.passive_view.length →
      disconnect n p true =
        some { n with rng := n.rng.advance,
                      passive_view := swapRemove n.passive_view
                        (genRangeFn n.rng 0 n.passive_view.length) ++ [p] }) := by
  have hdt : disconnect n p true = add_to_passive_view n p := by
    show handle_disconnect n ⟨p, true⟩ = _
    unfold handle_disconnect remove_from_active_view
    rw [(position_none _ _).2 hpa]
    dsimp only
    rfl
  refine ⟨?_, ?_, ?_, ?_⟩
  · exact handle_disconnect_noop n p hpa
  · intro n' h
    rw [hdt] at h
    obtain ⟨e1, e2, e3, e4, hsub, hVI, hB⟩ := add_to_passive_view_spec h
    exact ⟨e4, e3, e1, e2⟩
  · intro hne hnf
    rw [hdt]
    unfold add_to_passive_view
    rw [if_neg (by
      push_neg
      exact ⟨hpa, hpp, hne⟩)]
    unfold remove_random_from_passive_view_if_full
    rw [hnf]
    rfl
  · intro hne hfull hlen
    rw [hdt]
    unfold add_to_passive_view
    rw [if_neg (by
      push_neg
      exact ⟨hpa, hpp, hne⟩)]
    unfold remove_random_from_passive_view_if_full
    rw [if_pos hfull, genRange_pos n.rng hlen]

/-- Witness for the amended C8 on a node with passive view `[5]`: the direct
append when the view is not full, and the evict-then-append when it is. -/
theorem claim_C8_witness :
    disconnect hvP5 9 false = some hvP5 ∧
    disconnect hvP5 9 true =
      some { hvP5 with passive_view := hvP5.passive_view ++ [9] } ∧
    disconnect hvPFull 9 true =
      some { hvPFull with rng := StdRng.advance hvRng,
                          passive_view := swapRemove hvPFull.passive_view
                            (genRangeFn hvRng 0 hvPFull.passive_view.length) ++
                              [9] } :=
  ⟨(claim_C8_amended hvP5 9 (by decide) (by decide)).1,
   (claim_C8_amended hvP5 9 (by decide) (by decide)).2.2.1 (by decide) rfl,
   (claim_C8_amended hvPFull 9 (by decide) (by decide)).2.2.2 (by decide) rfl
     (by decide)⟩

/-- C9: a `Disconnect` with `alive = false` from a peer outside the active
view (also via the host call) leaves the node exactly unchanged: in
particular a sender present only in the passive view stays there. -/
theorem claim_C9 (n : Node T) (m : DisconnectMessage T)
    (halive : m.alive = false) (hna : m.sender ∉ n.active_view) :
    handle_disconnect n m = some n ∧
    disconnect n m.sender false = some n := by
  obtain ⟨s, alive⟩ := m
  dsimp only at halive hna
  subst halive
  exact ⟨handle_disconnect_noop n s hna, handle_disconnect_noop n s hna⟩

/-- Witness for C9: the sender 5 sits only in the passive view and stays. -/
theorem claim_C9_witness :
    handle_disconnect hvP5 ⟨5, false⟩ = some hvP5 ∧
    disconnect hvP5 5 false = some hvP5 :=
  claim_C9 hvP5 ⟨5, false⟩ rfl (by decide)

/-- C10: `poll_action` returns the oldest pending action and removes exactly
it, returns `none` iff the queue is empty, and changes no other field. -/
theorem claim_C10 (n : Node T) :
    (poll_action n).1 = n.actions.head? ∧
    (poll_action n).2.actions = n.actions.tail ∧
    ((poll_action n).1 = none ↔ n.actions = []) ∧
    (poll_action n).2.id = n.id ∧
    (poll_action n).2.active_view = n.active_view ∧
    (poll_action n).2.passive_view = n.passive_view ∧
    (poll_action n).2.options = n.options := by
  obtain ⟨q1, q2, q3, q4, q5, q6, q7⟩ := poll_action_fields n
  refine ⟨q6, q7, ?_, q1, q3, q4, q2⟩
  rw [q6]
  exact List.head?_eq_none_iff

end Hyparview
